import Mathlib

/-!
Verification of the tree materializer in src/ss.py.

The program walks a hardcoded nested mapping (names to either a file marker
or a nested mapping) and creates the corresponding directories and empty
files under a base directory.  We embed the filesystem as a partial map from
paths to entries, the OS permission state as a writability oracle on paths,
and the two OS primitives the program uses (os.makedirs and open(path, "w"))
as explicit state transformers that also record the creation/write events
they perform, so that ordering and frame properties can be stated.
-/

/-- A filesystem path, as the list of its name segments. -/
abbrev FsPath := List String

/-- A filesystem entry: a directory, or a file with its contents. -/
inductive Entry : Type where
  | dirE : Entry
  | fileE : String → Entry
deriving DecidableEq, Repr

/-- Filesystem state: a partial map from paths to entries. -/
abbrev FS := FsPath → Option Entry

/-- The empty filesystem. -/
def FS.emp : FS := fun _ => none

/-- Update the entry stored at one path. -/
def FS.set (fs : FS) (p : FsPath) (e : Entry) : FS :=
  fun q => if q = p then some e else fs q

/-- Whether path p denotes an existing directory; the empty path (the
current working directory, in which relative paths are resolved) counts
as a directory. -/
def isDirAt (fs : FS) (p : FsPath) : Bool :=
  match p with
  | [] => true
  | _ => decide (fs p = some Entry.dirE)

/-- A creation/write event performed by the walk: mkdir creates a directory,
touch creates a file or truncates an existing one to empty. -/
inductive Ev : Type where
  | mkdir : FsPath → Ev
  | touch : FsPath → Ev
deriving DecidableEq, Repr

/-- The path an event acts on. -/
def Ev.path : Ev → FsPath
  | .mkdir p => p
  | .touch p => p

/-- Effect of one event on the filesystem. -/
def applyEv (fs : FS) : Ev → FS
  | .mkdir p => fs.set p .dirE
  | .touch p => fs.set p (.fileE "")

/-- Effect of a sequence of events, first to last. -/
def applyEvs (fs : FS) : List Ev → FS
  | [] => fs
  | ev :: tl => applyEvs (applyEv fs ev) tl

/-- The OS errors the program's two filesystem calls can raise. -/
inductive FsError : Type where
  | permissionDenied : FsPath → FsError
  | fileExists : FsPath → FsError
  | notADirectory : FsPath → FsError
  | fileNotFound : FsPath → FsError
  | isADirectory : FsPath → FsError
deriving DecidableEq, Repr

/-- Outcome of an operation or of a walk: the resulting filesystem, the
events performed (in order), and on failure the error raised.  Entries
created before a failure stay in the resulting state (no rollback). -/
inductive Out : Type where
  | ok : FS → List Ev → Out
  | err : FS → List Ev → FsError → Out

/-- The filesystem state an outcome leaves behind. -/
def Out.stateOf : Out → FS
  | .ok fs _ => fs
  | .err fs _ _ => fs

/-- The events an outcome performed. -/
def Out.traceOf : Out → List Ev
  | .ok _ tr => tr
  | .err _ tr _ => tr

/-- Prepend already-performed events to an outcome's trace. -/
def Out.pre (t : List Ev) : Out → Out
  | .ok fs tr => .ok fs (t ++ tr)
  | .err fs tr e => .err fs (t ++ tr) e

/-- Sequencing: on success continue from the new state, on failure stop
(the python exception propagates; nothing done so far is undone). -/
def Out.seq : Out → (FS → Out) → Out
  | .ok fs tr, k => (k fs).pre tr
  | .err fs tr e, _ => .err fs tr e

/-- Walk of os.makedirs (used at src/ss.py lines 310 and 322): starting
from the already-validated prefix done, create every missing prefix
directory of the remaining segments.  exOk is the exist_ok flag: with
exist_ok=False a pre-existing final directory raises FileExistsError; a
pre-existing file raises in either mode (FileExistsError at the final
segment, NotADirectoryError when the next mkdir runs inside a non-directory).
Creating a directory inside an unwritable parent raises PermissionError. -/
def mkdirsGo (w : FsPath → Bool) (exOk : Bool) : FS → FsPath → List String → Out
  | fs, _, [] => .ok fs []
  | fs, done, s :: rest =>
    let q := done ++ [s]
    match fs q with
    | some .dirE =>
      if rest.isEmpty && !exOk then .err fs [] (.fileExists q)
      else mkdirsGo w exOk fs q rest
    | some (.fileE _) =>
      match rest with
      | [] => .err fs [] (.fileExists q)
      | t :: _ => .err fs [] (.notADirectory (q ++ [t]))
    | none =>
      if w done then (mkdirsGo w exOk (fs.set q .dirE) q rest).pre [.mkdir q]
      else .err fs [] (.permissionDenied q)

/-- os.makedirs(p), walking from the root. -/
def makedirs (w : FsPath → Bool) (exOk : Bool) (fs : FS) (p : FsPath) : Out :=
  mkdirsGo w exOk fs [] p

/-- Model of open(path, "w") immediately closed (src/ss.py lines 318-319):
creates an empty file, truncating any existing file to empty; fails if the
path is a directory, if a new file's parent directory is missing or not a
directory, or if the OS denies the write (unwritable parent for a new file,
unwritable file for a truncation). -/
def openW (w : FsPath → Bool) (fs : FS) (p : FsPath) : Out :=
  match fs p with
  | some .dirE => .err fs [] (.isADirectory p)
  | some (.fileE _) =>
    if w p then .ok (fs.set p (.fileE "")) [.touch p]
    else .err fs [] (.permissionDenied p)
  | none =>
    if isDirAt fs p.dropLast then
      if w p.dropLast then .ok (fs.set p (.fileE "")) [.touch p]
      else .err fs [] (.permissionDenied p)
    else .err fs [] (.fileNotFound p)

/-- A node of the structure literal (src/ss.py lines 8-305): None in the
python dict denotes a file marker, a nested dict a directory node whose
children are listed in insertion order. -/
inductive Node : Type where
  | file : Node
  | dir : List (String × Node) → Node
deriving Repr

/-- Lines 308-310: if not os.path.exists(base_path): os.makedirs(base_path). -/
def ensure_base (w : FsPath → Bool) (fs : FS) (base_path : FsPath) : Out :=
  match fs base_path with
  | none => makedirs w false fs base_path
  | some _ => .ok fs []

/-- Lines 313-323: the loop of create_structure over the mapping's items in
order.  The directory arm performs os.makedirs(path, exist_ok=True) and then
inlines the recursive create_structure(path, content) call, namely its
base-exists check (ensure_base) followed by the loop over the children. -/
def run_items (w : FsPath → Bool) : FS → FsPath → List (String × Node) → Out
  | fs, _, [] => .ok fs []
  | fs, bp, (nm, .file) :: rest =>
    (openW w fs (bp ++ [nm])).seq fun fs1 => run_items w fs1 bp rest
  | fs, bp, (nm, .dir ch) :: rest =>
    (makedirs w true fs (bp ++ [nm])).seq fun fs1 =>
      (ensure_base w fs1 (bp ++ [nm])).seq fun fs2 =>
        (run_items w fs2 (bp ++ [nm]) ch).seq fun fs3 =>
          run_items w fs3 bp rest
termination_by _ _ st => sizeOf st

/-- Lines 307-323: create_structure(base_path, st) = ensure the base
directory exists, then process the items. -/
def create_structure (w : FsPath → Bool) (fs : FS) (base_path : FsPath)
    (st : List (String × Node)) : Out :=
  (ensure_base w fs base_path).seq fun fs1 => run_items w fs1 base_path st

/-- Line 327: the f-string printed on success. -/
def success_message (base_dir : String) : String :=
  "Directory structure created successfully under '" ++ base_dir ++ "'"

/-- What the program writes to standard output for a given outcome: the
completion line on success, nothing on an unhandled error. -/
def stdoutOf (base_dir : String) : Out → Option String
  | .ok _ _ => some (success_message base_dir)
  | .err _ _ _ => none

/-- Computed paths of all directory nodes of a tree below base bp. -/
def dirPaths (bp : FsPath) : List (String × Node) → List FsPath
  | [] => []
  | (_, .file) :: rest => dirPaths bp rest
  | (nm, .dir ch) :: rest =>
    (bp ++ [nm]) :: (dirPaths (bp ++ [nm]) ch ++ dirPaths bp rest)
termination_by st => sizeOf st

/-- Computed paths of all file markers of a tree below base bp. -/
def filePaths (bp : FsPath) : List (String × Node) → List FsPath
  | [] => []
  | (nm, .file) :: rest => (bp ++ [nm]) :: filePaths bp rest
  | (nm, .dir ch) :: rest => filePaths (bp ++ [nm]) ch ++ filePaths bp rest
termination_by st => sizeOf st

/-- Nesting depth of a tree (number of directory levels). -/
def depthL : List (String × Node) → Nat
  | [] => 0
  | (_, .file) :: rest => depthL rest
  | (_, .dir ch) :: rest => max (1 + depthL ch) (depthL rest)
termination_by st => sizeOf st
/-- The complete directory structure literal (src/ss.py lines 8-305). -/
def theStructure : List (String × Node) := [
  ("main.dart", Node.file),
  ("app.dart", Node.file),
  ("firebase_options.dart", Node.file),
  ("core", Node.dir [
    ("constants", Node.dir [
      ("api_constants.dart", Node.file),
      ("app_constants.dart", Node.file),
      ("color_constants.dart", Node.file),
      ("string_constants.dart", Node.file)
    ]),
    ("config", Node.dir [
      ("app_config.dart", Node.file),
      ("dio_config.dart", Node.file),
      ("websocket_config.dart", Node.file)
    ]),
    ("utils", Node.dir [
      ("date_utils.dart", Node.file),
      ("file_utils.dart", Node.file),
      ("phone_utils.dart", Node.file),
      ("permission_utils.dart", Node.file),
      ("validation_utils.dart", Node.file)
    ]),
    ("extensions", Node.dir [
      ("context_extensions.dart", Node.file),
      ("string_extensions.dart", Node.file),
      ("datetime_extensions.dart", Node.file),
      ("widget_extensions.dart", Node.file)
    ]),
    ("exceptions", Node.dir [
      ("app_exception.dart", Node.file),
      ("network_exception.dart", Node.file),
      ("auth_exception.dart", Node.file)
    ])
  ]),
  ("models", Node.dir [
    ("auth", Node.dir [
      ("user_model.dart", Node.file),
      ("login_request.dart", Node.file),
      ("register_request.dart", Node.file),
      ("otp_request.dart", Node.file),
      ("auth_response.dart", Node.file)
    ]),
    ("chat", Node.dir [
      ("chat_model.dart", Node.file),
      ("message_model.dart", Node.file),
      ("participant_model.dart", Node.file),
      ("chat_settings.dart", Node.file)
    ]),
    ("group", Node.dir [
      ("group_model.dart", Node.file),
      ("group_member.dart", Node.file),
      ("group_settings.dart", Node.file),
      ("group_invite.dart", Node.file)
    ]),
    ("call", Node.dir [
      ("call_model.dart", Node.file),
      ("call_participant.dart", Node.file),
      ("call_settings.dart", Node.file),
      ("webrtc_models.dart", Node.file)
    ]),
    ("file", Node.dir [
      ("file_model.dart", Node.file),
      ("media_model.dart", Node.file),
      ("upload_response.dart", Node.file)
    ]),
    ("common", Node.dir [
      ("api_response.dart", Node.file),
      ("pagination_model.dart", Node.file),
      ("error_model.dart", Node.file)
    ])
  ]),
  ("services", Node.dir [
    ("api", Node.dir [
      ("api_service.dart", Node.file),
      ("auth_api.dart", Node.file),
      ("chat_api.dart", Node.file),
      ("group_api.dart", Node.file),
      ("call_api.dart", Node.file),
      ("file_api.dart", Node.file),
      ("message_api.dart", Node.file)
    ]),
    ("websocket", Node.dir [
      ("websocket_service.dart", Node.file),
      ("chat_socket.dart", Node.file),
      ("call_socket.dart", Node.file)
    ]),
    ("storage", Node.dir [
      ("secure_storage.dart", Node.file),
      ("local_storage.dart", Node.file),
      ("cache_service.dart", Node.file)
    ]),
    ("notification", Node.dir [
      ("fcm_service.dart", Node.file),
      ("local_notification.dart", Node.file),
      ("notification_handler.dart", Node.file)
    ]),
    ("media", Node.dir [
      ("media_service.dart", Node.file),
      ("image_service.dart", Node.file),
      ("video_service.dart", Node.file),
      ("audio_service.dart", Node.file),
      ("file_picker_service.dart", Node.file)
    ]),
    ("call", Node.dir [
      ("webrtc_service.dart", Node.file),
      ("call_manager.dart", Node.file),
      ("signaling_service.dart", Node.file)
    ]),
    ("location", Node.dir [
      ("location_service.dart", Node.file),
      ("maps_service.dart", Node.file)
    ])
  ]),
  ("providers", Node.dir [
    ("auth", Node.dir [
      ("auth_provider.dart", Node.file),
      ("user_provider.dart", Node.file),
      ("auth_state.dart", Node.file)
    ]),
    ("chat", Node.dir [
      ("chat_provider.dart", Node.file),
      ("message_provider.dart", Node.file),
      ("typing_provider.dart", Node.file),
      ("chat_list_provider.dart", Node.file)
    ]),
    ("group", Node.dir [
      ("group_provider.dart", Node.file),
      ("group_member_provider.dart", Node.file),
      ("group_settings_provider.dart", Node.file)
    ]),
    ("call", Node.dir [
      ("call_provider.dart", Node.file),
      ("webrtc_provider.dart", Node.file),
      ("call_history_provider.dart", Node.file)
    ]),
    ("file", Node.dir [
      ("file_provider.dart", Node.file),
      ("media_provider.dart", Node.file),
      ("upload_provider.dart", Node.file)
    ]),
    ("settings", Node.dir [
      ("settings_provider.dart", Node.file),
      ("theme_provider.dart", Node.file),
      ("language_provider.dart", Node.file)
    ]),
    ("common", Node.dir [
      ("connectivity_provider.dart", Node.file),
      ("permission_provider.dart", Node.file),
      ("notification_provider.dart", Node.file)
    ])
  ]),
  ("screens", Node.dir [
    ("auth", Node.dir [
      ("login_screen.dart", Node.file),
      ("register_screen.dart", Node.file),
      ("otp_verification_screen.dart", Node.file),
      ("phone_input_screen.dart", Node.file),
      ("profile_setup_screen.dart", Node.file)
    ]),
    ("chat", Node.dir [
      ("chat_list_screen.dart", Node.file),
      ("chat_screen.dart", Node.file),
      ("chat_info_screen.dart", Node.file),
      ("new_chat_screen.dart", Node.file),
      ("search_chat_screen.dart", Node.file)
    ]),
    ("group", Node.dir [
      ("group_list_screen.dart", Node.file),
      ("group_chat_screen.dart", Node.file),
      ("group_info_screen.dart", Node.file),
      ("create_group_screen.dart", Node.file),
      ("add_members_screen.dart", Node.file),
      ("group_settings_screen.dart", Node.file),
      ("group_invite_screen.dart", Node.file)
    ]),
    ("call", Node.dir [
      ("call_screen.dart", Node.file),
      ("incoming_call_screen.dart", Node.file),
      ("outgoing_call_screen.dart", Node.file),
      ("call_history_screen.dart", Node.file),
      ("video_call_screen.dart", Node.file)
    ]),
    ("settings", Node.dir [
      ("settings_screen.dart", Node.file),
      ("profile_screen.dart", Node.file),
      ("privacy_screen.dart", Node.file),
      ("notification_settings_screen.dart", Node.file),
      ("chat_settings_screen.dart", Node.file),
      ("storage_settings_screen.dart", Node.file),
      ("about_screen.dart", Node.file)
    ]),
    ("media", Node.dir [
      ("image_viewer_screen.dart", Node.file),
      ("video_player_screen.dart", Node.file),
      ("document_viewer_screen.dart", Node.file),
      ("camera_screen.dart", Node.file),
      ("gallery_screen.dart", Node.file)
    ]),
    ("status", Node.dir [
      ("status_screen.dart", Node.file),
      ("add_status_screen.dart", Node.file),
      ("status_viewer_screen.dart", Node.file),
      ("status_privacy_screen.dart", Node.file)
    ]),
    ("common", Node.dir [
      ("splash_screen.dart", Node.file),
      ("onboarding_screen.dart", Node.file),
      ("main_navigation_screen.dart", Node.file),
      ("search_screen.dart", Node.file),
      ("error_screen.dart", Node.file)
    ])
  ]),
  ("widgets", Node.dir [
    ("common", Node.dir [
      ("custom_app_bar.dart", Node.file),
      ("custom_button.dart", Node.file),
      ("custom_text_field.dart", Node.file),
      ("custom_dialog.dart", Node.file),
      ("custom_bottom_sheet.dart", Node.file),
      ("loading_widget.dart", Node.file),
      ("error_widget.dart", Node.file),
      ("empty_state_widget.dart", Node.file),
      ("custom_fab.dart", Node.file),
      ("custom_badge.dart", Node.file),
      ("custom_divider.dart", Node.file)
    ]),
    ("auth", Node.dir [
      ("phone_input_widget.dart", Node.file),
      ("otp_input_widget.dart", Node.file),
      ("country_picker_widget.dart", Node.file),
      ("profile_picture_widget.dart", Node.file)
    ]),
    ("chat", Node.dir [
      ("chat_tile.dart", Node.file),
      ("message_bubble.dart", Node.file),
      ("message_input.dart", Node.file),
      ("typing_indicator.dart", Node.file),
      ("voice_note_player.dart", Node.file),
      ("chat_app_bar.dart", Node.file),
      ("message_reply_preview.dart", Node.file),
      ("emoji_picker_widget.dart", Node.file),
      ("attachment_picker.dart", Node.file),
      ("read_receipt_widget.dart", Node.file)
    ]),
    ("group", Node.dir [
      ("group_tile.dart", Node.file),
      ("group_member_tile.dart", Node.file),
      ("group_info_widget.dart", Node.file),
      ("member_picker_widget.dart", Node.file),
      ("group_permissions_widget.dart", Node.file)
    ]),
    ("call", Node.dir [
      ("call_tile.dart", Node.file),
      ("call_controls.dart", Node.file),
      ("call_participant_widget.dart", Node.file),
      ("call_overlay.dart", Node.file),
      ("call_stats_widget.dart", Node.file)
    ]),
    ("media", Node.dir [
      ("image_message_widget.dart", Node.file),
      ("video_message_widget.dart", Node.file),
      ("audio_message_widget.dart", Node.file),
      ("document_message_widget.dart", Node.file),
      ("location_message_widget.dart", Node.file),
      ("contact_message_widget.dart", Node.file),
      ("media_grid_widget.dart", Node.file),
      ("media_thumbnail.dart", Node.file)
    ]),
    ("settings", Node.dir [
      ("settings_tile.dart", Node.file),
      ("settings_section.dart", Node.file),
      ("switch_tile.dart", Node.file),
      ("slider_tile.dart", Node.file)
    ]),
    ("status", Node.dir [
      ("status_tile.dart", Node.file),
      ("status_viewer_widget.dart", Node.file),
      ("status_progress_widget.dart", Node.file),
      ("status_input_widget.dart", Node.file)
    ])
  ]),
  ("router", Node.dir [
    ("app_router.dart", Node.file),
    ("route_names.dart", Node.file),
    ("route_transitions.dart", Node.file),
    ("router_config.dart", Node.file)
  ]),
  ("theme", Node.dir [
    ("app_theme.dart", Node.file),
    ("light_theme.dart", Node.file),
    ("dark_theme.dart", Node.file),
    ("colors.dart", Node.file),
    ("text_styles.dart", Node.file),
    ("dimensions.dart", Node.file),
    ("custom_theme_extensions.dart", Node.file)
  ])
]

/-- Lines 326-327 (create_directory_structure): run create_structure with
base directory "lib" on the structure literal; on success print the
completion line, on an unhandled error print nothing to standard output. -/
def create_directory_structure (w : FsPath → Bool) (fs : FS) :
    Out × Option String :=
  (create_structure w fs ["lib"] theStructure,
   stdoutOf "lib" (create_structure w fs ["lib"] theStructure))

/-- Fuel-indexed variant of run_items: fuel bounds the recursion depth
(one unit consumed on each descent into a directory's children); none
means the fuel was exhausted before the walk finished. -/
def run_items_fuel (w : FsPath → Bool) :
    Nat → FS → FsPath → List (String × Node) → Option Out
  | _, fs, _, [] => some (.ok fs [])
  | fuel, fs, bp, (nm, .file) :: rest =>
    match openW w fs (bp ++ [nm]) with
    | .ok fs1 t1 => (run_items_fuel w fuel fs1 bp rest).map (Out.pre t1)
    | .err fs1 t1 e => some (.err fs1 t1 e)
  | 0, _, _, (_, .dir _) :: _ => none
  | fuel + 1, fs, bp, (nm, .dir ch) :: rest =>
    match makedirs w true fs (bp ++ [nm]) with
    | .err fs1 t1 e => some (.err fs1 t1 e)
    | .ok fs1 t1 =>
      match ensure_base w fs1 (bp ++ [nm]) with
      | .err fs2 t2 e => some (.err fs2 (t1 ++ t2) e)
      | .ok fs2 t2 =>
        match run_items_fuel w fuel fs2 (bp ++ [nm]) ch with
        | none => none
        | some (.err fs3 t3 e) => some (.err fs3 (t1 ++ (t2 ++ t3)) e)
        | some (.ok fs3 t3) =>
          (run_items_fuel w (fuel + 1) fs3 bp rest).map
            (fun o => (((o.pre t3).pre t2).pre t1))
termination_by fuel _ _ st => (sizeOf st, fuel)

/-- Precondition of one event in a trace, as required for the
parent-before-child invariant: a directory is only made where nothing
exists yet and the parent is an existing directory, and a file is only
created (as opposed to truncated in place) when its parent is an existing
directory. -/
def parentReady (fs : FS) : Ev → Bool
  | .mkdir p => decide (fs p = none) && isDirAt fs p.dropLast
  | .touch p =>
    match fs p with
    | some _ => true
    | none => isDirAt fs p.dropLast

/-- Every event of the trace satisfies parentReady in the filesystem state
reached by the events before it. -/
def parentsFirst (fs : FS) : List Ev → Bool
  | [] => true
  | ev :: tl => parentReady fs ev && parentsFirst (applyEv fs ev) tl

/-- The entry a performed event guarantees in any later state of the same
run: a made directory stays a directory, a touched file stays an empty
file. -/
def evHolds (fs : FS) : Ev → Prop
  | .mkdir p => fs p = some Entry.dirE
  | .touch p => fs p = some (Entry.fileE "")

/-- Big-step execution relation for the loop of create_structure
(src/ss.py lines 313-323), mirroring run_items step by step; the OS calls
openW / makedirs / ensure_base appear as premises. -/
inductive ExecI (w : FsPath → Bool) : FS → FsPath → List (String × Node) → Out → Prop where
  | nil (fs : FS) (bp : FsPath) : ExecI w fs bp [] (.ok fs [])
  | fileErr (fs : FS) (bp : FsPath) (nm : String) (rest : List (String × Node))
      (fs1 : FS) (t1 : List Ev) (e : FsError)
      (hop : openW w fs (bp ++ [nm]) = .err fs1 t1 e) :
      ExecI w fs bp ((nm, .file) :: rest) (.err fs1 t1 e)
  | fileOk (fs : FS) (bp : FsPath) (nm : String) (rest : List (String × Node))
      (fs1 : FS) (t1 : List Ev) (o : Out)
      (hop : openW w fs (bp ++ [nm]) = .ok fs1 t1)
      (hrest : ExecI w fs1 bp rest o) :
      ExecI w fs bp ((nm, .file) :: rest) (o.pre t1)
  | dirErrMk (fs : FS) (bp : FsPath) (nm : String) (ch rest : List (String × Node))
      (fs1 : FS) (t1 : List Ev) (e : FsError)
      (hmk : makedirs w true fs (bp ++ [nm]) = .err fs1 t1 e) :
      ExecI w fs bp ((nm, .dir ch) :: rest) (.err fs1 t1 e)
  | dirErrEnsure (fs : FS) (bp : FsPath) (nm : String) (ch rest : List (String × Node))
      (fs1 : FS) (t1 : List Ev) (fs2 : FS) (t2 : List Ev) (e : FsError)
      (hmk : makedirs w true fs (bp ++ [nm]) = .ok fs1 t1)
      (hen : ensure_base w fs1 (bp ++ [nm]) = .err fs2 t2 e) :
      ExecI w fs bp ((nm, .dir ch) :: rest) (.err fs2 (t1 ++ t2) e)
  | dirErrCh (fs : FS) (bp : FsPath) (nm : String) (ch rest : List (String × Node))
      (fs1 : FS) (t1 : List Ev) (fs2 : FS) (t2 : List Ev)
      (fs3 : FS) (t3 : List Ev) (e : FsError)
      (hmk : makedirs w true fs (bp ++ [nm]) = .ok fs1 t1)
      (hen : ensure_base w fs1 (bp ++ [nm]) = .ok fs2 t2)
      (hch : ExecI w fs2 (bp ++ [nm]) ch (.err fs3 t3 e)) :
      ExecI w fs bp ((nm, .dir ch) :: rest) (.err fs3 (t1 ++ (t2 ++ t3)) e)
  | dirOk (fs : FS) (bp : FsPath) (nm : String) (ch rest : List (String × Node))
      (fs1 : FS) (t1 : List Ev) (fs2 : FS) (t2 : List Ev)
      (fs3 : FS) (t3 : List Ev) (o : Out)
      (hmk : makedirs w true fs (bp ++ [nm]) = .ok fs1 t1)
      (hen : ensure_base w fs1 (bp ++ [nm]) = .ok fs2 t2)
      (hch : ExecI w fs2 (bp ++ [nm]) ch (.ok fs3 t3))
      (hrest : ExecI w fs3 bp rest o) :
      ExecI w fs bp ((nm, .dir ch) :: rest) (((o.pre t3).pre t2).pre t1)

/-- Big-step execution relation for a whole create_structure run
(src/ss.py lines 307-323): the base-exists step, then the loop. -/
inductive ExecCS (w : FsPath → Bool) : FS → FsPath → List (String × Node) → Out → Prop where
  | ensureErr (fs : FS) (bp : FsPath) (st : List (String × Node))
      (fs1 : FS) (t1 : List Ev) (e : FsError)
      (hen : ensure_base w fs bp = .err fs1 t1 e) :
      ExecCS w fs bp st (.err fs1 t1 e)
  | ensureOk (fs : FS) (bp : FsPath) (st : List (String × Node))
      (fs1 : FS) (t1 : List Ev) (o : Out)
      (hen : ensure_base w fs bp = .ok fs1 t1)
      (hrun : ExecI w fs1 bp st o) :
      ExecCS w fs bp st (o.pre t1)

/-! ### Basic lemmas about states, outcomes and events -/

theorem FS.set_at (fs : FS) (p : FsPath) (e : Entry) : fs.set p e p = some e := by
  simp [FS.set]

theorem FS.set_ne (fs : FS) (p q : FsPath) (e : Entry) (h : q ≠ p) :
    fs.set p e q = fs q := by
  simp [FS.set, h]

theorem FS.set_same (fs : FS) (p : FsPath) (e : Entry) (h : fs p = some e) :
    fs.set p e = fs := by
  funext q
  by_cases hq : q = p
  · subst hq; simp [FS.set, h]
  · simp [FS.set, hq]

theorem Out.stateOf_pre (t : List Ev) (o : Out) : (o.pre t).stateOf = o.stateOf := by
  cases o <;> rfl

theorem Out.traceOf_pre (t : List Ev) (o : Out) :
    (o.pre t).traceOf = t ++ o.traceOf := by
  cases o <;> rfl

theorem Out.pre_nil (o : Out) : o.pre [] = o := by
  cases o <;> simp [Out.pre]

theorem Out.pre_pre (t1 t2 : List Ev) (o : Out) :
    (o.pre t2).pre t1 = o.pre (t1 ++ t2) := by
  cases o <;> simp [Out.pre]

theorem Out.seq_pre (t : List Ev) (o : Out) (k : FS → Out) :
    (o.pre t).seq k = (o.seq k).pre t := by
  cases o with
  | err fs tr e => rfl
  | ok fs tr =>
    show (k fs).pre (t ++ tr) = ((k fs).pre tr).pre t
    rw [Out.pre_pre]

theorem Out.seq_assoc (o : Out) (k1 k2 : FS → Out) :
    (o.seq k1).seq k2 = o.seq fun fs => (k1 fs).seq k2 := by
  cases o with
  | err fs tr e => rfl
  | ok fs tr =>
    show ((k1 fs).pre tr).seq k2 = ((k1 fs).seq k2).pre tr
    exact Out.seq_pre tr (k1 fs) k2

theorem isDirAt_of_dir (fs : FS) (p : FsPath) (h : fs p = some Entry.dirE) :
    isDirAt fs p = true := by
  cases p <;> simp [isDirAt, h]

theorem applyEvs_append (fs : FS) (t1 t2 : List Ev) :
    applyEvs fs (t1 ++ t2) = applyEvs (applyEvs fs t1) t2 := by
  induction t1 generalizing fs with
  | nil => rfl
  | cons ev tl ih => simp [applyEvs, ih]

/-! ### Lemmas about the makedirs walk -/

theorem mk_pres (w : FsPath → Bool) (exOk : Bool) (fs : FS) (done : FsPath)
    (segs : List String) (p : FsPath) (e : Entry) (h : fs p = some e) :
    (mkdirsGo w exOk fs done segs).stateOf p = some e := by
  induction segs generalizing fs done with
  | nil => simpa [mkdirsGo, Out.stateOf] using h
  | cons s rest ih =>
    rw [mkdirsGo.eq_def]
    cases hq : fs (done ++ [s]) with
    | none =>
      simp only [hq]
      by_cases hw : w done
      · have hne : p ≠ done ++ [s] := by
          rintro rfl; rw [h] at hq; exact Option.noConfusion hq
        simp only [hw, if_true, Out.stateOf_pre]
        exact ih _ _ (by rw [FS.set_ne _ _ _ _ hne]; exact h)
      · simp [hw, Out.stateOf, h]
    | some ent =>
      cases ent with
      | dirE =>
        simp only [hq]
        by_cases hr : rest.isEmpty && !exOk
        · simp [hr, Out.stateOf, h]
        · simp only [hr, if_false]
          exact ih _ _ h
      | fileE c =>
        simp only [hq]
        cases rest <;> simp [Out.stateOf, h]

theorem mk_prefix_dirs (w : FsPath → Bool) (exOk : Bool) (fs : FS) (done : FsPath)
    (segs : List String) (fs2 : FS) (tr : List Ev)
    (hok : mkdirsGo w exOk fs done segs = .ok fs2 tr)
    (t : List String) (ht : t ≠ []) (hpre : t <+: segs) :
    fs2 (done ++ t) = some Entry.dirE := by
  induction segs generalizing fs done tr t with
  | nil => exact absurd (List.prefix_nil.mp hpre) ht
  | cons s rest ih =>
    rw [mkdirsGo.eq_def] at hok
    obtain ⟨a, t', rfl⟩ : ∃ a t', t = a :: t' := by
      cases t with
      | nil => exact absurd rfl ht
      | cons a t' => exact ⟨a, t', rfl⟩
    obtain ⟨heq, ht'⟩ := List.cons_prefix_cons.mp hpre
    rw [heq]
    cases hq : fs (done ++ [s]) with
    | none =>
      simp only [hq] at hok
      by_cases hw : w done
      · rw [if_pos hw] at hok
        cases hrec : mkdirsGo w exOk (fs.set (done ++ [s]) Entry.dirE) (done ++ [s]) rest with
        | ok fsr trr =>
          rw [hrec] at hok
          simp only [Out.pre] at hok
          obtain ⟨rfl, rfl⟩ : fsr = fs2 ∧ [Ev.mkdir (done ++ [s])] ++ trr = tr := by
            cases hok; exact ⟨rfl, rfl⟩
          cases t' with
          | nil =>
            have h2 := mk_pres w exOk (fs.set (done ++ [s]) Entry.dirE) (done ++ [s]) rest
              (done ++ [s]) Entry.dirE (FS.set_at fs (done ++ [s]) Entry.dirE)
            rw [hrec] at h2
            simpa using h2
          | cons b t2 =>
            have h2 := ih (fs.set (done ++ [s]) Entry.dirE) (done ++ [s]) trr hrec (b :: t2)
              (by simp) ht'
            rw [List.append_cons done s (b :: t2)]
            exact h2
        | err fsr trr e =>
          rw [hrec] at hok
          simp only [Out.pre] at hok
          exact Out.noConfusion hok
      · rw [if_neg hw] at hok
        exact Out.noConfusion hok
    | some ent =>
      cases ent with
      | dirE =>
        simp only [hq] at hok
        by_cases hr : rest.isEmpty && !exOk
        · rw [if_pos hr] at hok; exact Out.noConfusion hok
        · rw [if_neg hr] at hok
          cases t' with
          | nil =>
            have h2 := mk_pres w exOk fs (done ++ [s]) rest (done ++ [s]) Entry.dirE hq
            rw [hok] at h2
            simpa using h2
          | cons b t2 =>
            have h2 := ih fs (done ++ [s]) tr hok (b :: t2) (by simp) ht'
            rw [List.append_cons done s (b :: t2)]
            exact h2
      | fileE c =>
        cases rest with
        | nil => simp only [hq] at hok; exact Out.noConfusion hok
        | cons u us => simp only [hq] at hok; exact Out.noConfusion hok

theorem mk_ok_target (w : FsPath → Bool) (exOk : Bool) (fs : FS) (done : FsPath)
    (segs : List String) (fs2 : FS) (tr : List Ev)
    (hok : mkdirsGo w exOk fs done segs = .ok fs2 tr) (hne : segs ≠ []) :
    fs2 (done ++ segs) = some Entry.dirE :=
  mk_prefix_dirs w exOk fs done segs fs2 tr hok segs hne List.prefix_rfl

theorem mk_noop (w : FsPath → Bool) (fs : FS) (done : FsPath) (segs : List String)
    (h : ∀ t, t ≠ [] → t <+: segs → fs (done ++ t) = some Entry.dirE) :
    mkdirsGo w true fs done segs = .ok fs [] := by
  induction segs generalizing done with
  | nil => rfl
  | cons s rest ih =>
    rw [mkdirsGo.eq_def]
    have hq : fs (done ++ [s]) = some Entry.dirE :=
      h [s] (by simp) (List.cons_prefix_cons.mpr ⟨rfl, List.nil_prefix ..⟩)
    simp only [hq, Bool.not_true, Bool.and_false]
    rw [if_neg Bool.false_ne_true]
    exact ih (done ++ [s]) fun t ht hpre => by
      have h2 := h (s :: t) (by simp) (List.cons_prefix_cons.mpr ⟨rfl, hpre⟩)
      rwa [List.append_cons] at h2

theorem mk_sound (w : FsPath → Bool) (exOk : Bool) (fs : FS) (done : FsPath)
    (segs : List String) :
    (mkdirsGo w exOk fs done segs).stateOf =
      applyEvs fs (mkdirsGo w exOk fs done segs).traceOf := by
  induction segs generalizing fs done with
  | nil => rfl
  | cons s rest ih =>
    rw [mkdirsGo.eq_def]
    cases hq : fs (done ++ [s]) with
    | none =>
      simp only [hq]
      by_cases hw : w done
      · simp only [hw, if_true, Out.stateOf_pre, Out.traceOf_pre]
        have h2 := ih (fs.set (done ++ [s]) Entry.dirE) (done ++ [s])
        simpa [applyEvs, applyEv] using h2
      · simp [hw, Out.stateOf, Out.traceOf, applyEvs]
    | some ent =>
      cases ent with
      | dirE =>
        simp only [hq]
        by_cases hr : rest.isEmpty && !exOk
        · simp [hr, Out.stateOf, Out.traceOf, applyEvs]
        · simp only [hr, if_false]
          exact ih fs (done ++ [s])
      | fileE c =>
        simp only [hq]
        cases rest <;> simp [Out.stateOf, Out.traceOf, applyEvs]

theorem mk_parentsFirst (w : FsPath → Bool) (exOk : Bool) (fs : FS) (done : FsPath)
    (segs : List String) (hd : isDirAt fs done = true) :
    parentsFirst fs (mkdirsGo w exOk fs done segs).traceOf = true := by
  induction segs generalizing fs done with
  | nil => rfl
  | cons s rest ih =>
    rw [mkdirsGo.eq_def]
    cases hq : fs (done ++ [s]) with
    | none =>
      simp only [hq]
      by_cases hw : w done
      · simp only [hw, if_true, Out.traceOf_pre]
        have h1 : parentReady fs (Ev.mkdir (done ++ [s])) = true := by
          simp [parentReady, hq, List.dropLast_concat, hd]
        have h2 := ih (fs.set (done ++ [s]) Entry.dirE) (done ++ [s])
          (isDirAt_of_dir _ _ (FS.set_at _ _ _))
        simpa [parentsFirst, h1, applyEv] using h2
      · simp [hw, parentsFirst, Out.traceOf]
    | some ent =>
      cases ent with
      | dirE =>
        simp only [hq]
        by_cases hr : rest.isEmpty && !exOk
        · simp [hr, parentsFirst, Out.traceOf]
        · simp only [hr, if_false]
          exact ih fs (done ++ [s]) (isDirAt_of_dir _ _ hq)
      | fileE c =>
        simp only [hq]
        cases rest <;> simp [parentsFirst, Out.traceOf]

theorem mk_evHolds (w : FsPath → Bool) (exOk : Bool) (fs : FS) (done : FsPath)
    (segs : List String) (ev : Ev)
    (hm : ev ∈ (mkdirsGo w exOk fs done segs).traceOf) :
    evHolds (mkdirsGo w exOk fs done segs).stateOf ev := by
  induction segs generalizing fs done with
  | nil => simp [mkdirsGo, Out.traceOf] at hm
  | cons s rest ih =>
    rw [mkdirsGo.eq_def] at hm ⊢
    cases hq : fs (done ++ [s]) with
    | none =>
      simp only [hq] at hm ⊢
      by_cases hw : w done
      · simp only [hw, if_true, Out.traceOf_pre, Out.stateOf_pre] at hm ⊢
        rcases List.mem_append.mp hm with h1 | h2
        · have hev : ev = Ev.mkdir (done ++ [s]) := by simpa using h1
          subst hev
          show (mkdirsGo w exOk (fs.set (done ++ [s]) Entry.dirE) (done ++ [s]) rest).stateOf
              (done ++ [s]) = some Entry.dirE
          exact mk_pres w exOk _ _ rest _ _ (FS.set_at fs (done ++ [s]) Entry.dirE)
        · exact ih _ _ h2
      · simp [hw, Out.traceOf] at hm
    | some ent =>
      cases ent with
      | dirE =>
        simp only [hq] at hm ⊢
        by_cases hr : rest.isEmpty && !exOk
        · simp [hr, Out.traceOf] at hm
        · simp only [hr, if_false] at hm ⊢
          exact ih fs _ hm
      | fileE c =>
        simp only [hq] at hm ⊢
        cases rest <;> simp [Out.traceOf] at hm

theorem mk_last_absent (w : FsPath → Bool) (exOk : Bool) (fs : FS) (done : FsPath)
    (segs : List String) (nm : String)
    (hpre : ∀ t, t ≠ [] → t <+: segs → fs (done ++ t) = some Entry.dirE)
    (habs : fs (done ++ segs ++ [nm]) = none)
    (hw : w (done ++ segs) = false) :
    mkdirsGo w exOk fs done (segs ++ [nm]) =
      .err fs [] (.permissionDenied (done ++ segs ++ [nm])) := by
  induction segs generalizing done with
  | nil =>
    rw [mkdirsGo.eq_def]
    simp only [List.append_nil] at habs hw ⊢
    simp only [List.nil_append]
    simp only [habs]
    rw [if_neg (by simp [hw])]
  | cons s rest ih =>
    rw [mkdirsGo.eq_def]
    have hq : fs (done ++ [s]) = some Entry.dirE :=
      hpre [s] (by simp) (List.cons_prefix_cons.mpr ⟨rfl, List.nil_prefix ..⟩)
    show (match fs (done ++ [s]) with
      | some Entry.dirE =>
        if ((rest ++ [nm]).isEmpty && !exOk) = true then
          Out.err fs [] (FsError.fileExists (done ++ [s]))
        else mkdirsGo w exOk fs (done ++ [s]) (rest ++ [nm])
      | some (Entry.fileE _) =>
        match rest ++ [nm] with
        | [] => Out.err fs [] (FsError.fileExists (done ++ [s]))
        | t :: _ => Out.err fs [] (FsError.notADirectory (done ++ [s] ++ [t]))
      | none =>
        if w done = true then
          Out.pre [Ev.mkdir (done ++ [s])]
            (mkdirsGo w exOk (fs.set (done ++ [s]) Entry.dirE) (done ++ [s]) (rest ++ [nm]))
        else Out.err fs [] (FsError.permissionDenied (done ++ [s]))) =
      Out.err fs [] (FsError.permissionDenied (done ++ s :: rest ++ [nm]))
    simp only [hq]
    have hne : (rest ++ [nm]).isEmpty = false := by
      cases rest <;> simp [List.isEmpty]
    rw [hne]
    simp only [Bool.false_and]
    rw [if_neg Bool.false_ne_true]
    have h2 := ih (done ++ [s])
      (fun t ht hp => by
        have h3 := hpre (s :: t) (by simp) (List.cons_prefix_cons.mpr ⟨rfl, hp⟩)
        rwa [List.append_cons] at h3)
      (by rwa [← List.append_cons])
      (by rwa [← List.append_cons])
    rw [h2, List.append_cons done s rest]

/-! ### Lemmas about the open-for-write model -/

theorem openW_pres_ne (w : FsPath → Bool) (fs : FS) (p q : FsPath) (h : q ≠ p) :
    (openW w fs p).stateOf q = fs q := by
  rw [openW.eq_def]
  cases hp : fs p with
  | none =>
    simp only [hp]
    by_cases h1 : isDirAt fs p.dropLast <;> by_cases h2 : w p.dropLast <;>
      simp [h1, h2, Out.stateOf, FS.set_ne _ _ _ _ h]
  | some ent =>
    cases ent with
    | dirE => simp [Out.stateOf]
    | fileE c =>
      simp only [hp]
      by_cases h2 : w p <;> simp [h2, Out.stateOf, FS.set_ne _ _ _ _ h]

theorem openW_dir_pres (w : FsPath → Bool) (fs : FS) (p q : FsPath)
    (h : fs q = some Entry.dirE) :
    (openW w fs p).stateOf q = some Entry.dirE := by
  by_cases hqp : q = p
  · subst hqp; simp [openW, h, Out.stateOf]
  · rw [openW_pres_ne w fs p q hqp]; exact h

theorem openW_file0_pres (w : FsPath → Bool) (fs : FS) (p q : FsPath)
    (h : fs q = some (Entry.fileE "")) :
    (openW w fs p).stateOf q = some (Entry.fileE "") := by
  by_cases hqp : q = p
  · subst hqp
    simp only [openW, h]
    by_cases h2 : w q <;> simp [h2, Out.stateOf, FS.set_at, h]
  · rw [openW_pres_ne w fs p q hqp]; exact h

theorem openW_pres_present (w : FsPath → Bool) (fs : FS) (p q : FsPath) (e : Entry)
    (h : fs q = some e) : ∃ e2, (openW w fs p).stateOf q = some e2 := by
  by_cases hqp : q = p
  · subst hqp
    rw [openW.eq_def]
    cases hp : fs q with
    | none => rw [hp] at h; exact Option.noConfusion h
    | some ent =>
      cases ent with
      | dirE => exact ⟨e, by simpa [Out.stateOf] using h⟩
      | fileE c =>
        simp only [hp]
        by_cases h2 : w q <;> simp [h2, Out.stateOf, FS.set_at, h]
  · exact ⟨e, by rw [openW_pres_ne w fs p q hqp]; exact h⟩

theorem openW_ok (w : FsPath → Bool) (fs : FS) (p : FsPath) (fs1 : FS) (t1 : List Ev)
    (hok : openW w fs p = .ok fs1 t1) :
    fs1 = fs.set p (Entry.fileE "") ∧ t1 = [Ev.touch p] := by
  rw [openW.eq_def] at hok
  cases hp : fs p with
  | none =>
    simp only [hp] at hok
    by_cases h1 : isDirAt fs p.dropLast
    · rw [if_pos h1] at hok
      by_cases h2 : w p.dropLast
      · rw [if_pos h2] at hok; cases hok; exact ⟨rfl, rfl⟩
      · rw [if_neg h2] at hok; exact Out.noConfusion hok
    · rw [if_neg h1] at hok; exact Out.noConfusion hok
  | some ent =>
    cases ent with
    | dirE => simp only [hp] at hok; exact Out.noConfusion hok
    | fileE c =>
      simp only [hp] at hok
      by_cases h2 : w p
      · rw [if_pos h2] at hok; cases hok; exact ⟨rfl, rfl⟩
      · rw [if_neg h2] at hok; exact Out.noConfusion hok

theorem openW_err_state (w : FsPath → Bool) (fs : FS) (p : FsPath) (fs1 : FS)
    (t1 : List Ev) (e : FsError) (herr : openW w fs p = .err fs1 t1 e) :
    fs1 = fs ∧ t1 = [] := by
  rw [openW.eq_def] at herr
  cases hp : fs p with
  | none =>
    simp only [hp] at herr
    by_cases h1 : isDirAt fs p.dropLast
    · rw [if_pos h1] at herr
      by_cases h2 : w p.dropLast
      · rw [if_pos h2] at herr; exact Out.noConfusion herr
      · rw [if_neg h2] at herr; cases herr; exact ⟨rfl, rfl⟩
    · rw [if_neg h1] at herr; cases herr; exact ⟨rfl, rfl⟩
  | some ent =>
    cases ent with
    | dirE => simp only [hp] at herr; cases herr; exact ⟨rfl, rfl⟩
    | fileE c =>
      simp only [hp] at herr
      by_cases h2 : w p
      · rw [if_pos h2] at herr; exact Out.noConfusion herr
      · rw [if_neg h2] at herr; cases herr; exact ⟨rfl, rfl⟩

theorem openW_sound (w : FsPath → Bool) (fs : FS) (p : FsPath) :
    (openW w fs p).stateOf = applyEvs fs (openW w fs p).traceOf := by
  cases ho : openW w fs p with
  | ok fs1 t1 =>
    obtain ⟨rfl, rfl⟩ := openW_ok w fs p fs1 t1 ho
    simp [Out.stateOf, Out.traceOf, applyEvs, applyEv]
  | err fs1 t1 e =>
    obtain ⟨rfl, rfl⟩ := openW_err_state w fs p fs1 t1 e ho
    simp [Out.stateOf, Out.traceOf, applyEvs]

theorem openW_parentsFirst (w : FsPath → Bool) (fs : FS) (p : FsPath) :
    parentsFirst fs (openW w fs p).traceOf = true := by
  rw [openW.eq_def]
  cases hp : fs p with
  | none =>
    simp only [hp]
    by_cases h1 : isDirAt fs p.dropLast
    · by_cases h2 : w p.dropLast <;>
        simp [h1, h2, Out.traceOf, parentsFirst, parentReady, hp]
    · simp [h1, Out.traceOf, parentsFirst]
  | some ent =>
    cases ent with
    | dirE => simp [Out.traceOf, parentsFirst]
    | fileE c =>
      simp only [hp]
      by_cases h2 : w p <;>
        simp [h2, Out.traceOf, parentsFirst, parentReady, hp]

theorem openW_evHolds (w : FsPath → Bool) (fs : FS) (p : FsPath) (ev : Ev)
    (hm : ev ∈ (openW w fs p).traceOf) :
    evHolds (openW w fs p).stateOf ev := by
  cases ho : openW w fs p with
  | ok fs1 t1 =>
    obtain ⟨rfl, rfl⟩ := openW_ok w fs p fs1 t1 ho
    rw [ho] at hm
    have hev : ev = Ev.touch p := by simpa [Out.traceOf] using hm
    subst hev
    show (Out.ok (fs.set p (Entry.fileE "")) [Ev.touch p]).stateOf p = some (Entry.fileE "")
    simp [Out.stateOf, FS.set_at]
  | err fs1 t1 e =>
    obtain ⟨rfl, rfl⟩ := openW_err_state w fs p fs1 t1 e ho
    rw [ho] at hm
    simp [Out.traceOf] at hm

/-! ### Wrappers for makedirs and the base-exists step -/

theorem makedirs_pres (w : FsPath → Bool) (exOk : Bool) (fs : FS) (tgt p : FsPath)
    (e : Entry) (h : fs p = some e) :
    (makedirs w exOk fs tgt).stateOf p = some e :=
  mk_pres w exOk fs [] tgt p e h

theorem makedirs_prefix_dirs (w : FsPath → Bool) (exOk : Bool) (fs : FS) (tgt : FsPath)
    (fs2 : FS) (tr : List Ev) (hok : makedirs w exOk fs tgt = .ok fs2 tr)
    (t : List String) (ht : t ≠ []) (hpre : t <+: tgt) :
    fs2 t = some Entry.dirE := by
  have h2 := mk_prefix_dirs w exOk fs [] tgt fs2 tr hok t ht hpre
  simpa using h2

theorem makedirs_ok_target (w : FsPath → Bool) (exOk : Bool) (fs : FS) (tgt : FsPath)
    (fs2 : FS) (tr : List Ev) (hok : makedirs w exOk fs tgt = .ok fs2 tr)
    (hne : tgt ≠ []) : fs2 tgt = some Entry.dirE := by
  have h2 := mk_ok_target w exOk fs [] tgt fs2 tr hok hne
  simpa using h2

theorem makedirs_noop (w : FsPath → Bool) (fs : FS) (tgt : FsPath)
    (h : ∀ t, t ≠ [] → t <+: tgt → fs t = some Entry.dirE) :
    makedirs w true fs tgt = .ok fs [] :=
  mk_noop w fs [] tgt fun t ht hp => by simpa using h t ht hp

theorem makedirs_sound (w : FsPath → Bool) (exOk : Bool) (fs : FS) (tgt : FsPath) :
    (makedirs w exOk fs tgt).stateOf = applyEvs fs (makedirs w exOk fs tgt).traceOf :=
  mk_sound w exOk fs [] tgt

theorem makedirs_parentsFirst (w : FsPath → Bool) (exOk : Bool) (fs : FS) (tgt : FsPath) :
    parentsFirst fs (makedirs w exOk fs tgt).traceOf = true :=
  mk_parentsFirst w exOk fs [] tgt rfl

theorem makedirs_evHolds (w : FsPath → Bool) (exOk : Bool) (fs : FS) (tgt : FsPath)
    (ev : Ev) (hm : ev ∈ (makedirs w exOk fs tgt).traceOf) :
    evHolds (makedirs w exOk fs tgt).stateOf ev :=
  mk_evHolds w exOk fs [] tgt ev hm

theorem en_present (w : FsPath → Bool) (fs : FS) (bp : FsPath) (e : Entry)
    (h : fs bp = some e) : ensure_base w fs bp = .ok fs [] := by
  simp [ensure_base, h]

theorem en_pres (w : FsPath → Bool) (fs : FS) (bp p : FsPath) (e : Entry)
    (h : fs p = some e) : (ensure_base w fs bp).stateOf p = some e := by
  rw [ensure_base.eq_def]
  cases hb : fs bp with
  | none => exact makedirs_pres w false fs bp p e h
  | some e2 => simpa [Out.stateOf] using h

theorem en_sound (w : FsPath → Bool) (fs : FS) (bp : FsPath) :
    (ensure_base w fs bp).stateOf = applyEvs fs (ensure_base w fs bp).traceOf := by
  rw [ensure_base.eq_def]
  cases hb : fs bp with
  | none => exact makedirs_sound w false fs bp
  | some e2 => rfl

theorem en_parentsFirst (w : FsPath → Bool) (fs : FS) (bp : FsPath) :
    parentsFirst fs (ensure_base w fs bp).traceOf = true := by
  rw [ensure_base.eq_def]
  cases hb : fs bp with
  | none => exact makedirs_parentsFirst w false fs bp
  | some e2 => rfl

theorem en_evHolds (w : FsPath → Bool) (fs : FS) (bp : FsPath) (ev : Ev)
    (hm : ev ∈ (ensure_base w fs bp).traceOf) :
    evHolds (ensure_base w fs bp).stateOf ev := by
  rw [ensure_base.eq_def] at hm ⊢
  cases hb : fs bp with
  | none => exact makedirs_evHolds w false fs bp ev (by simpa [hb] using hm)
  | some e2 => simp [hb, Out.traceOf] at hm

/-! ### Equations for the walk -/

theorem ri_nil (w : FsPath → Bool) (fs : FS) (bp : FsPath) :
    run_items w fs bp [] = .ok fs [] := by
  rw [run_items]

theorem ri_file (w : FsPath → Bool) (fs : FS) (bp : FsPath) (nm : String)
    (rest : List (String × Node)) :
    run_items w fs bp ((nm, .file) :: rest) =
      (openW w fs (bp ++ [nm])).seq fun fs1 => run_items w fs1 bp rest := by
  rw [run_items]

theorem ri_dir (w : FsPath → Bool) (fs : FS) (bp : FsPath) (nm : String)
    (ch rest : List (String × Node)) :
    run_items w fs bp ((nm, .dir ch) :: rest) =
      (makedirs w true fs (bp ++ [nm])).seq fun fs1 =>
        (ensure_base w fs1 (bp ++ [nm])).seq fun fs2 =>
          (run_items w fs2 (bp ++ [nm]) ch).seq fun fs3 =>
            run_items w fs3 bp rest := by
  rw [run_items]

theorem cs_eq (w : FsPath → Bool) (fs : FS) (bp : FsPath) (st : List (String × Node)) :
    create_structure w fs bp st =
      (ensure_base w fs bp).seq fun fs1 => run_items w fs1 bp st := rfl

/-- The directory arm of the loop is exactly makedirs followed by the
recursive create_structure call. -/
theorem ri_dir_cs (w : FsPath → Bool) (fs : FS) (bp : FsPath) (nm : String)
    (ch rest : List (String × Node)) :
    run_items w fs bp ((nm, .dir ch) :: rest) =
      (makedirs w true fs (bp ++ [nm])).seq fun fs1 =>
        (create_structure w fs1 (bp ++ [nm]) ch).seq fun fs3 =>
          run_items w fs3 bp rest := by
  rw [ri_dir]
  have h : ∀ fs' : FS,
      ((create_structure w fs' (bp ++ [nm]) ch).seq fun fs3 =>
        run_items w fs3 bp rest) =
      ((ensure_base w fs' (bp ++ [nm])).seq fun fs2 =>
        (run_items w fs2 (bp ++ [nm]) ch).seq fun fs3 =>
          run_items w fs3 bp rest) := by
    intro fs'
    rw [cs_eq, Out.seq_assoc]
  cases makedirs w true fs (bp ++ [nm]) with
  | err fs1 t1 e => rfl
  | ok fs1 t1 =>
    exact congrArg _ (funext fun fs' => (h fs').symm)

/-! ### Run-level lemmas -/

theorem openW_stable (w : FsPath → Bool) (fs : FS) (p q : FsPath) (e : Entry)
    (he : e = Entry.dirE ∨ e = Entry.fileE "") (h : fs q = some e) :
    (openW w fs p).stateOf q = some e := by
  rcases he with rfl | rfl
  · exact openW_dir_pres w fs p q h
  · exact openW_file0_pres w fs p q h

theorem ri_stable (w : FsPath → Bool) (p : FsPath) (e : Entry)
    (he : e = Entry.dirE ∨ e = Entry.fileE "") (fs : FS) (bp : FsPath)
    (st : List (String × Node)) (h : fs p = some e) :
    (run_items w fs bp st).stateOf p = some e := by
  revert h
  induction fs, bp, st using run_items.induct w with
  | case1 fs bp => intro h; simpa [ri_nil, Out.stateOf] using h
  | case2 fs bp nm rest ih =>
    intro h
    rw [ri_file]
    cases ho : openW w fs (bp ++ [nm]) with
    | ok fs1 t1 =>
      have h1 : fs1 p = some e := by
        have h2 := openW_stable w fs (bp ++ [nm]) p e he h
        rw [ho] at h2; exact h2
      simp only [Out.seq, Out.stateOf_pre]
      exact ih fs1 h1
    | err fs1 t1 er =>
      obtain ⟨rfl, rfl⟩ := openW_err_state w fs (bp ++ [nm]) fs1 t1 er ho
      simpa [Out.seq, Out.stateOf] using h
  | case3 fs bp nm ch rest ih1 ih2 =>
    intro h
    rw [ri_dir]
    cases hmk : makedirs w true fs (bp ++ [nm]) with
    | err fs1 t1 er =>
      have h1 := makedirs_pres w true fs (bp ++ [nm]) p e h
      rw [hmk] at h1
      simpa [Out.seq, Out.stateOf] using h1
    | ok fs1 t1 =>
      have h1 : fs1 p = some e := by
        have h2 := makedirs_pres w true fs (bp ++ [nm]) p e h
        rw [hmk] at h2; exact h2
      simp only [Out.seq, Out.stateOf_pre]
      cases hen : ensure_base w fs1 (bp ++ [nm]) with
      | err fs2 t2 er =>
        have h2 := en_pres w fs1 (bp ++ [nm]) p e h1
        rw [hen] at h2
        simpa [Out.seq, Out.stateOf] using h2
      | ok fs2 t2 =>
        have h2 : fs2 p = some e := by
          have h3 := en_pres w fs1 (bp ++ [nm]) p e h1
          rw [hen] at h3; exact h3
        simp only [Out.seq, Out.stateOf_pre]
        cases hch : run_items w fs2 (bp ++ [nm]) ch with
        | err fs3 t3 er =>
          have h3 := ih1 fs2 h2
          rw [hch] at h3
          simpa [Out.seq, Out.stateOf] using h3
        | ok fs3 t3 =>
          have h3 : fs3 p = some e := by
            have h4 := ih1 fs2 h2
            rw [hch] at h4; exact h4
          simp only [Out.seq, Out.stateOf_pre]
          exact ih2 fs3 h3

theorem ri_sound (w : FsPath → Bool) (fs : FS) (bp : FsPath)
    (st : List (String × Node)) :
    (run_items w fs bp st).stateOf = applyEvs fs (run_items w fs bp st).traceOf := by
  induction fs, bp, st using run_items.induct w with
  | case1 fs bp => simp [ri_nil, Out.stateOf, Out.traceOf, applyEvs]
  | case2 fs bp nm rest ih =>
    rw [ri_file]
    cases ho : openW w fs (bp ++ [nm]) with
    | ok fs1 t1 =>
      have hs1 : fs1 = applyEvs fs t1 := by
        have h0 := openW_sound w fs (bp ++ [nm]); rw [ho] at h0; exact h0
      simp only [Out.seq, Out.stateOf_pre, Out.traceOf_pre]
      rw [applyEvs_append, ← hs1]
      exact ih fs1
    | err fs1 t1 er =>
      have h0 := openW_sound w fs (bp ++ [nm])
      rw [ho] at h0
      simpa [Out.seq, Out.stateOf, Out.traceOf] using h0
  | case3 fs bp nm ch rest ih1 ih2 =>
    rw [ri_dir]
    cases hmk : makedirs w true fs (bp ++ [nm]) with
    | err fs1 t1 er =>
      have h0 := makedirs_sound w true fs (bp ++ [nm])
      rw [hmk] at h0
      simpa [Out.seq, Out.stateOf, Out.traceOf] using h0
    | ok fs1 t1 =>
      have hs1 : fs1 = applyEvs fs t1 := by
        have h0 := makedirs_sound w true fs (bp ++ [nm]); rw [hmk] at h0; exact h0
      simp only [Out.seq, Out.stateOf_pre, Out.traceOf_pre]
      rw [applyEvs_append, ← hs1]
      cases hen : ensure_base w fs1 (bp ++ [nm]) with
      | err fs2 t2 er =>
        have h0 := en_sound w fs1 (bp ++ [nm])
        rw [hen] at h0
        simpa [Out.seq, Out.stateOf, Out.traceOf] using h0
      | ok fs2 t2 =>
        have hs2 : fs2 = applyEvs fs1 t2 := by
          have h0 := en_sound w fs1 (bp ++ [nm]); rw [hen] at h0; exact h0
        simp only [Out.seq, Out.stateOf_pre, Out.traceOf_pre]
        rw [applyEvs_append, ← hs2]
        cases hch : run_items w fs2 (bp ++ [nm]) ch with
        | err fs3 t3 er =>
          have h0 := ih1 fs2
          rw [hch] at h0
          simpa [Out.seq, Out.stateOf, Out.traceOf] using h0
        | ok fs3 t3 =>
          have hs3 : fs3 = applyEvs fs2 t3 := by
            have h0 := ih1 fs2; rw [hch] at h0; exact h0
          simp only [Out.seq, Out.stateOf_pre, Out.traceOf_pre]
          rw [applyEvs_append, ← hs3]
          exact ih2 fs3

theorem fp_nil (bp : FsPath) : filePaths bp [] = [] := by rw [filePaths]

theorem fp_file (bp : FsPath) (nm : String) (rest : List (String × Node)) :
    filePaths bp ((nm, .file) :: rest) = (bp ++ [nm]) :: filePaths bp rest := by
  rw [filePaths]

theorem fp_dir (bp : FsPath) (nm : String) (ch rest : List (String × Node)) :
    filePaths bp ((nm, .dir ch) :: rest) =
      filePaths (bp ++ [nm]) ch ++ filePaths bp rest := by
  rw [filePaths]

theorem dp_nil (bp : FsPath) : dirPaths bp [] = [] := by rw [dirPaths]

theorem dp_file (bp : FsPath) (nm : String) (rest : List (String × Node)) :
    dirPaths bp ((nm, .file) :: rest) = dirPaths bp rest := by
  rw [dirPaths]

theorem dp_dir (bp : FsPath) (nm : String) (ch rest : List (String × Node)) :
    dirPaths bp ((nm, .dir ch) :: rest) =
      (bp ++ [nm]) :: (dirPaths (bp ++ [nm]) ch ++ dirPaths bp rest) := by
  rw [dirPaths]

theorem ri_pres_nonfile (w : FsPath → Bool) (p : FsPath) (e : Entry) (fs : FS)
    (bp : FsPath) (st : List (String × Node)) (h : fs p = some e)
    (hnf : p ∉ filePaths bp st) :
    (run_items w fs bp st).stateOf p = some e := by
  revert h hnf
  induction fs, bp, st using run_items.induct w with
  | case1 fs bp => intro h hnf; simpa [ri_nil, Out.stateOf] using h
  | case2 fs bp nm rest ih =>
    intro h hnf
    rw [fp_file] at hnf
    have hne : p ≠ bp ++ [nm] := fun hp => hnf (hp ▸ List.mem_cons_self _ _)
    have hnf2 : p ∉ filePaths bp rest := fun hp => hnf (List.mem_cons_of_mem _ hp)
    rw [ri_file]
    cases ho : openW w fs (bp ++ [nm]) with
    | ok fs1 t1 =>
      have h1 : fs1 p = some e := by
        have h2 := openW_pres_ne w fs (bp ++ [nm]) p hne
        rw [ho] at h2
        simpa [Out.stateOf, h] using h2
      simp only [Out.seq, Out.stateOf_pre]
      exact ih fs1 h1 hnf2
    | err fs1 t1 er =>
      obtain ⟨rfl, rfl⟩ := openW_err_state w fs (bp ++ [nm]) fs1 t1 er ho
      simpa [Out.seq, Out.stateOf] using h
  | case3 fs bp nm ch rest ih1 ih2 =>
    intro h hnf
    rw [fp_dir] at hnf
    have hch1 : p ∉ filePaths (bp ++ [nm]) ch :=
      fun hp => hnf (List.mem_append.mpr (Or.inl hp))
    have hrest1 : p ∉ filePaths bp rest :=
      fun hp => hnf (List.mem_append.mpr (Or.inr hp))
    rw [ri_dir]
    cases hmk : makedirs w true fs (bp ++ [nm]) with
    | err fs1 t1 er =>
      have h1 := makedirs_pres w true fs (bp ++ [nm]) p e h
      rw [hmk] at h1
      simpa [Out.seq, Out.stateOf] using h1
    | ok fs1 t1 =>
      have h1 : fs1 p = some e := by
        have h2 := makedirs_pres w true fs (bp ++ [nm]) p e h
        rw [hmk] at h2; exact h2
      simp only [Out.seq, Out.stateOf_pre]
      cases hen : ensure_base w fs1 (bp ++ [nm]) with
      | err fs2 t2 er =>
        have h2 := en_pres w fs1 (bp ++ [nm]) p e h1
        rw [hen] at h2
        simpa [Out.seq, Out.stateOf] using h2
      | ok fs2 t2 =>
        have h2 : fs2 p = some e := by
          have h3 := en_pres w fs1 (bp ++ [nm]) p e h1
          rw [hen] at h3; exact h3
        simp only [Out.seq, Out.stateOf_pre]
        cases hch : run_items w fs2 (bp ++ [nm]) ch with
        | err fs3 t3 er =>
          have h3 := ih1 fs2 h2 hch1
          rw [hch] at h3
          simpa [Out.seq, Out.stateOf] using h3
        | ok fs3 t3 =>
          have h3 : fs3 p = some e := by
            have h4 := ih1 fs2 h2 hch1
            rw [hch] at h4; exact h4
          simp only [Out.seq, Out.stateOf_pre]
          exact ih2 fs3 h3 hrest1

theorem parentsFirst_append (fs : FS) (t1 t2 : List Ev) :
    parentsFirst fs (t1 ++ t2) =
      (parentsFirst fs t1 && parentsFirst (applyEvs fs t1) t2) := by
  induction t1 generalizing fs with
  | nil => simp [parentsFirst, applyEvs]
  | cons ev tl ih =>
    simp [parentsFirst, applyEvs, ih, Bool.and_assoc]

theorem ri_parentsFirst (w : FsPath → Bool) (fs : FS) (bp : FsPath)
    (st : List (String × Node)) :
    parentsFirst fs (run_items w fs bp st).traceOf = true := by
  induction fs, bp, st using run_items.induct w with
  | case1 fs bp => simp [ri_nil, Out.traceOf, parentsFirst]
  | case2 fs bp nm rest ih =>
    rw [ri_file]
    cases ho : openW w fs (bp ++ [nm]) with
    | ok fs1 t1 =>
      have hp1 := openW_parentsFirst w fs (bp ++ [nm])
      rw [ho] at hp1
      have hs1 : fs1 = applyEvs fs t1 := by
        have h0 := openW_sound w fs (bp ++ [nm]); rw [ho] at h0; exact h0
      simp only [Out.seq, Out.traceOf_pre]
      rw [parentsFirst_append, ← hs1]
      simp only [Out.traceOf] at hp1
      rw [hp1, ih fs1]
      rfl
    | err fs1 t1 er =>
      have hp1 := openW_parentsFirst w fs (bp ++ [nm])
      rw [ho] at hp1
      simpa [Out.seq, Out.traceOf] using hp1
  | case3 fs bp nm ch rest ih1 ih2 =>
    rw [ri_dir]
    cases hmk : makedirs w true fs (bp ++ [nm]) with
    | err fs1 t1 er =>
      have hp1 := makedirs_parentsFirst w true fs (bp ++ [nm])
      rw [hmk] at hp1
      simpa [Out.seq, Out.traceOf] using hp1
    | ok fs1 t1 =>
      have hp1 := makedirs_parentsFirst w true fs (bp ++ [nm])
      rw [hmk] at hp1
      simp only [Out.traceOf] at hp1
      have hs1 : fs1 = applyEvs fs t1 := by
        have h0 := makedirs_sound w true fs (bp ++ [nm]); rw [hmk] at h0; exact h0
      simp only [Out.seq, Out.traceOf_pre]
      rw [parentsFirst_append, ← hs1, hp1]
      cases hen : ensure_base w fs1 (bp ++ [nm]) with
      | err fs2 t2 er =>
        have hp2 := en_parentsFirst w fs1 (bp ++ [nm])
        rw [hen] at hp2
        simpa [Out.seq, Out.traceOf] using hp2
      | ok fs2 t2 =>
        have hp2 := en_parentsFirst w fs1 (bp ++ [nm])
        rw [hen] at hp2
        simp only [Out.traceOf] at hp2
        have hs2 : fs2 = applyEvs fs1 t2 := by
          have h0 := en_sound w fs1 (bp ++ [nm]); rw [hen] at h0; exact h0
        simp only [Out.seq, Out.traceOf_pre]
        rw [parentsFirst_append, ← hs2, hp2]
        cases hch : run_items w fs2 (bp ++ [nm]) ch with
        | err fs3 t3 er =>
          have hp3 := ih1 fs2
          rw [hch] at hp3
          simpa [Out.seq, Out.traceOf] using hp3
        | ok fs3 t3 =>
          have hp3 := ih1 fs2
          rw [hch] at hp3
          simp only [Out.traceOf] at hp3
          have hs3 : fs3 = applyEvs fs2 t3 := by
            have h0 := ri_sound w fs2 (bp ++ [nm]) ch; rw [hch] at h0; exact h0
          simp only [Out.seq, Out.traceOf_pre]
          rw [parentsFirst_append, ← hs3, hp3]
          simpa using ih2 fs3

theorem ri_file_ok_chain (w : FsPath → Bool) (fs : FS) (bp : FsPath) (nm : String)
    (rest : List (String × Node)) (fs' : FS) (tr : List Ev)
    (hok : run_items w fs bp ((nm, .file) :: rest) = .ok fs' tr) :
    ∃ fs1 t1 t4, openW w fs (bp ++ [nm]) = .ok fs1 t1 ∧
      run_items w fs1 bp rest = .ok fs' t4 ∧ tr = t1 ++ t4 := by
  rw [ri_file] at hok
  cases ho : openW w fs (bp ++ [nm]) with
  | err fs1 t1 er => rw [ho] at hok; exact Out.noConfusion hok
  | ok fs1 t1 =>
    rw [ho] at hok
    simp only [Out.seq] at hok
    cases hrest : run_items w fs1 bp rest with
    | err fsr trr er =>
      rw [hrest] at hok; simp only [Out.seq, Out.pre] at hok; exact Out.noConfusion hok
    | ok fsr trr =>
      rw [hrest] at hok
      simp only [Out.seq, Out.pre] at hok
      obtain ⟨rfl, rfl⟩ : fsr = fs' ∧ t1 ++ trr = tr := by cases hok; exact ⟨rfl, rfl⟩
      exact ⟨fs1, t1, trr, rfl, hrest, rfl⟩

theorem ri_dir_ok_chain (w : FsPath → Bool) (fs : FS) (bp : FsPath) (nm : String)
    (ch rest : List (String × Node)) (fs' : FS) (tr : List Ev)
    (hok : run_items w fs bp ((nm, .dir ch) :: rest) = .ok fs' tr) :
    ∃ fs1 t1 fs2 t2 fs3 t3 t4,
      makedirs w true fs (bp ++ [nm]) = .ok fs1 t1 ∧
      ensure_base w fs1 (bp ++ [nm]) = .ok fs2 t2 ∧
      run_items w fs2 (bp ++ [nm]) ch = .ok fs3 t3 ∧
      run_items w fs3 bp rest = .ok fs' t4 ∧
      tr = t1 ++ (t2 ++ (t3 ++ t4)) := by
  rw [ri_dir] at hok
  cases hmk : makedirs w true fs (bp ++ [nm]) with
  | err fs1 t1 er => rw [hmk] at hok; exact Out.noConfusion hok
  | ok fs1 t1 =>
    rw [hmk] at hok
    simp only [Out.seq] at hok
    cases hen : ensure_base w fs1 (bp ++ [nm]) with
    | err fs2 t2 er =>
      rw [hen] at hok; simp only [Out.seq, Out.pre] at hok; exact Out.noConfusion hok
    | ok fs2 t2 =>
      rw [hen] at hok
      simp only [Out.seq, Out.seq_pre] at hok
      cases hch : run_items w fs2 (bp ++ [nm]) ch with
      | err fs3 t3 er =>
        rw [hch] at hok; simp only [Out.seq, Out.pre] at hok; exact Out.noConfusion hok
      | ok fs3 t3 =>
        rw [hch] at hok
        simp only [Out.seq, Out.seq_pre] at hok
        cases hrest : run_items w fs3 bp rest with
        | err fs4 t4 er =>
          rw [hrest] at hok; simp only [Out.seq, Out.pre] at hok
          exact Out.noConfusion hok
        | ok fs4 t4 =>
          rw [hrest] at hok
          simp only [Out.seq, Out.pre] at hok
          obtain ⟨rfl, rfl⟩ : fs4 = fs' ∧ t1 ++ (t2 ++ (t3 ++ t4)) = tr := by
            cases hok; exact ⟨rfl, rfl⟩
          exact ⟨fs1, t1, fs2, t2, fs3, t3, t4, rfl, hen, hch, hrest, rfl⟩

theorem evHolds_mkdir (fs : FS) (p : FsPath) :
    evHolds fs (Ev.mkdir p) = (fs p = some Entry.dirE) := rfl

theorem evHolds_touch (fs : FS) (p : FsPath) :
    evHolds fs (Ev.touch p) = (fs p = some (Entry.fileE "")) := rfl

theorem openW_evStable (w : FsPath → Bool) (fs : FS) (tgt : FsPath) (ev : Ev)
    (h : evHolds fs ev) : evHolds (openW w fs tgt).stateOf ev := by
  cases ev with
  | mkdir p => exact openW_dir_pres w fs tgt p h
  | touch p => exact openW_file0_pres w fs tgt p h

theorem makedirs_evStable (w : FsPath → Bool) (exOk : Bool) (fs : FS) (tgt : FsPath)
    (ev : Ev) (h : evHolds fs ev) : evHolds (makedirs w exOk fs tgt).stateOf ev := by
  cases ev with
  | mkdir p => exact makedirs_pres w exOk fs tgt p Entry.dirE h
  | touch p => exact makedirs_pres w exOk fs tgt p (Entry.fileE "") h

theorem en_evStable (w : FsPath → Bool) (fs : FS) (bp : FsPath) (ev : Ev)
    (h : evHolds fs ev) : evHolds (ensure_base w fs bp).stateOf ev := by
  cases ev with
  | mkdir p => exact en_pres w fs bp p Entry.dirE h
  | touch p => exact en_pres w fs bp p (Entry.fileE "") h

theorem ri_evStable (w : FsPath → Bool) (fs : FS) (bp : FsPath)
    (st : List (String × Node)) (ev : Ev) (h : evHolds fs ev) :
    evHolds (run_items w fs bp st).stateOf ev := by
  cases ev with
  | mkdir p => exact ri_stable w p Entry.dirE (Or.inl rfl) fs bp st h
  | touch p => exact ri_stable w p (Entry.fileE "") (Or.inr rfl) fs bp st h

theorem ri_evHolds (w : FsPath → Bool) (fs : FS) (bp : FsPath)
    (st : List (String × Node)) (ev : Ev)
    (hm : ev ∈ (run_items w fs bp st).traceOf) :
    evHolds (run_items w fs bp st).stateOf ev := by
  revert hm
  induction fs, bp, st using run_items.induct w with
  | case1 fs bp => intro hm; simp [ri_nil, Out.traceOf] at hm
  | case2 fs bp nm rest ih =>
    intro hm
    rw [ri_file] at hm ⊢
    cases ho : openW w fs (bp ++ [nm]) with
    | ok fs1 t1 =>
      rw [ho] at hm
      simp only [Out.seq, Out.traceOf_pre, Out.stateOf_pre] at hm ⊢
      rcases List.mem_append.mp hm with h1 | h2
      · have he1 := openW_evHolds w fs (bp ++ [nm]) ev (by rw [ho]; exact h1)
        rw [ho] at he1
        exact ri_evStable w fs1 bp rest ev he1
      · exact ih fs1 h2
    | err fs1 t1 er =>
      rw [ho] at hm
      simp only [Out.seq, Out.traceOf, Out.stateOf] at hm ⊢
      have he1 := openW_evHolds w fs (bp ++ [nm]) ev (by rw [ho]; exact hm)
      rw [ho] at he1
      exact he1
  | case3 fs bp nm ch rest ih1 ih2 =>
    intro hm
    rw [ri_dir] at hm ⊢
    cases hmk : makedirs w true fs (bp ++ [nm]) with
    | err fs1 t1 er =>
      rw [hmk] at hm
      simp only [Out.seq, Out.traceOf, Out.stateOf] at hm ⊢
      have he1 := makedirs_evHolds w true fs (bp ++ [nm]) ev (by rw [hmk]; exact hm)
      rw [hmk] at he1
      exact he1
    | ok fs1 t1 =>
      rw [hmk] at hm
      simp only [Out.seq, Out.traceOf_pre, Out.stateOf_pre] at hm ⊢
      cases hen : ensure_base w fs1 (bp ++ [nm]) with
      | err fs2 t2 er =>
        rw [hen] at hm
        simp only [Out.seq, Out.traceOf, Out.stateOf, Out.traceOf_pre,
          Out.stateOf_pre] at hm ⊢
        rcases List.mem_append.mp hm with h1 | h2
        · have he1 := makedirs_evHolds w true fs (bp ++ [nm]) ev (by rw [hmk]; exact h1)
          rw [hmk] at he1
          have he2 := en_evStable w fs1 (bp ++ [nm]) ev he1
          rw [hen] at he2
          exact he2
        · have he2 := en_evHolds w fs1 (bp ++ [nm]) ev (by rw [hen]; exact h2)
          rw [hen] at he2
          exact he2
      | ok fs2 t2 =>
        rw [hen] at hm
        simp only [Out.seq, Out.seq_pre, Out.traceOf_pre, Out.stateOf_pre] at hm ⊢
        cases hch : run_items w fs2 (bp ++ [nm]) ch with
        | err fs3 t3 er =>
          rw [hch] at hm
          simp only [Out.seq, Out.traceOf, Out.stateOf, Out.traceOf_pre,
            Out.stateOf_pre] at hm ⊢
          rcases List.mem_append.mp hm with h1 | hrest
          · have he1 := makedirs_evHolds w true fs (bp ++ [nm]) ev (by rw [hmk]; exact h1)
            rw [hmk] at he1
            have he2 := en_evStable w fs1 (bp ++ [nm]) ev he1
            rw [hen] at he2
            have he3 := ri_evStable w fs2 (bp ++ [nm]) ch ev he2
            rw [hch] at he3
            exact he3
          · rcases List.mem_append.mp hrest with h2 | h3
            · have he2 := en_evHolds w fs1 (bp ++ [nm]) ev (by rw [hen]; exact h2)
              rw [hen] at he2
              have he3 := ri_evStable w fs2 (bp ++ [nm]) ch ev he2
              rw [hch] at he3
              exact he3
            · have he3 := ih1 fs2 (by rw [hch]; exact h3)
              rw [hch] at he3
              exact he3
        | ok fs3 t3 =>
          rw [hch] at hm
          simp only [Out.seq, Out.seq_pre, Out.traceOf_pre, Out.stateOf_pre] at hm ⊢
          rcases List.mem_append.mp hm with h1 | hrest
          · have he1 := makedirs_evHolds w true fs (bp ++ [nm]) ev (by rw [hmk]; exact h1)
            rw [hmk] at he1
            have he2 := en_evStable w fs1 (bp ++ [nm]) ev he1
            rw [hen] at he2
            have he3 := ri_evStable w fs2 (bp ++ [nm]) ch ev he2
            rw [hch] at he3
            exact ri_evStable w fs3 bp rest ev he3
          · rcases List.mem_append.mp hrest with h2 | hrest2
            · have he2 := en_evHolds w fs1 (bp ++ [nm]) ev (by rw [hen]; exact h2)
              rw [hen] at he2
              have he3 := ri_evStable w fs2 (bp ++ [nm]) ch ev he2
              rw [hch] at he3
              exact ri_evStable w fs3 bp rest ev he3
            · rcases List.mem_append.mp hrest2 with h3 | h4
              · have he3 := ih1 fs2 (by rw [hch]; exact h3)
                rw [hch] at he3
                exact ri_evStable w fs3 bp rest ev he3
              · exact ih2 fs3 h4

theorem ri_ok_establishes (w : FsPath → Bool) (fs : FS) (bp : FsPath)
    (st : List (String × Node)) (fs' : FS) (tr : List Ev)
    (hok : run_items w fs bp st = .ok fs' tr) :
    (∀ p ∈ dirPaths bp st, fs' p = some Entry.dirE) ∧
      (∀ p ∈ filePaths bp st, fs' p = some (Entry.fileE "")) := by
  revert fs' tr hok
  induction fs, bp, st using run_items.induct w with
  | case1 fs bp =>
    intro fs' tr hok
    refine ⟨?_, ?_⟩ <;> intro p hp
    · rw [dp_nil] at hp; exact absurd hp (List.not_mem_nil p)
    · rw [fp_nil] at hp; exact absurd hp (List.not_mem_nil p)
  | case2 fs bp nm rest ih =>
    intro fs' tr hok
    obtain ⟨fs1, t1, t4, ho, hrest, rfl⟩ := ri_file_ok_chain w fs bp nm rest fs' tr hok
    obtain ⟨hdirs, hfiles⟩ := ih fs1 fs' t4 hrest
    constructor
    · intro p hp
      rw [dp_file] at hp
      exact hdirs p hp
    · intro p hp
      rw [fp_file] at hp
      rcases List.mem_cons.mp hp with rfl | hp2
      · obtain ⟨rfl, rfl⟩ := openW_ok w fs (bp ++ [nm]) fs1 t1 ho
        have h1 : (fs.set (bp ++ [nm]) (Entry.fileE "")) (bp ++ [nm]) =
            some (Entry.fileE "") := FS.set_at _ _ _
        have h2 := ri_stable w (bp ++ [nm]) (Entry.fileE "") (Or.inr rfl) _ bp rest h1
        rw [hrest] at h2
        exact h2
      · exact hfiles p hp2
  | case3 fs bp nm ch rest ih1 ih2 =>
    intro fs' tr hok
    obtain ⟨fs1, t1, fs2, t2, fs3, t3, t4, hmk, hen, hch, hrest, rfl⟩ :=
      ri_dir_ok_chain w fs bp nm ch rest fs' tr hok
    obtain ⟨hdirs1, hfiles1⟩ := ih1 fs2 fs3 t3 hch
    obtain ⟨hdirs2, hfiles2⟩ := ih2 fs3 fs' t4 hrest
    have hq : fs' (bp ++ [nm]) = some Entry.dirE := by
      have h1 := makedirs_ok_target w true fs (bp ++ [nm]) fs1 t1 hmk (by simp)
      have h2 := en_pres w fs1 (bp ++ [nm]) (bp ++ [nm]) Entry.dirE h1
      rw [hen] at h2
      have h3 := ri_stable w (bp ++ [nm]) Entry.dirE (Or.inl rfl) fs2 (bp ++ [nm]) ch h2
      rw [hch] at h3
      have h4 := ri_stable w (bp ++ [nm]) Entry.dirE (Or.inl rfl) fs3 bp rest h3
      rw [hrest] at h4
      exact h4
    constructor
    · intro p hp
      rw [dp_dir] at hp
      rcases List.mem_cons.mp hp with rfl | hp2
      · exact hq
      · rcases List.mem_append.mp hp2 with hp3 | hp4
        · have h3 := hdirs1 p hp3
          have h4 := ri_stable w p Entry.dirE (Or.inl rfl) fs3 bp rest h3
          rw [hrest] at h4
          exact h4
        · exact hdirs2 p hp4
    · intro p hp
      rw [fp_dir] at hp
      rcases List.mem_append.mp hp with hp3 | hp4
      · have h3 := hfiles1 p hp3
        have h4 := ri_stable w p (Entry.fileE "") (Or.inr rfl) fs3 bp rest h3
        rw [hrest] at h4
        exact h4
      · exact hfiles2 p hp4

theorem ri_ok_prefixes (w : FsPath → Bool) (fs : FS) (bp : FsPath)
    (st : List (String × Node)) (fs' : FS) (tr : List Ev)
    (hok : run_items w fs bp st = .ok fs' tr) (q : FsPath) (hq : q ∈ dirPaths bp st)
    (t : FsPath) (ht : t ≠ []) (hpre : t <+: q) : fs' t = some Entry.dirE := by
  revert fs' tr hok q hq t ht hpre
  induction fs, bp, st using run_items.induct w with
  | case1 fs bp =>
    intro fs' tr hok q hq t ht hpre
    rw [dp_nil] at hq
    exact absurd hq (List.not_mem_nil q)
  | case2 fs bp nm rest ih =>
    intro fs' tr hok q hq t ht hpre
    obtain ⟨fs1, t1, t4, ho, hrest, rfl⟩ := ri_file_ok_chain w fs bp nm rest fs' tr hok
    rw [dp_file] at hq
    exact ih fs1 fs' t4 hrest q hq t ht hpre
  | case3 fs bp nm ch rest ih1 ih2 =>
    intro fs' tr hok q hq t ht hpre
    obtain ⟨fs1, t1, fs2, t2, fs3, t3, t4, hmk, hen, hch, hrest, rfl⟩ :=
      ri_dir_ok_chain w fs bp nm ch rest fs' tr hok
    rw [dp_dir] at hq
    rcases List.mem_cons.mp hq with rfl | hq2
    · have h1 := makedirs_prefix_dirs w true fs (bp ++ [nm]) fs1 t1 hmk t ht hpre
      have h2 := en_pres w fs1 (bp ++ [nm]) t Entry.dirE h1
      rw [hen] at h2
      have h3 := ri_stable w t Entry.dirE (Or.inl rfl) fs2 (bp ++ [nm]) ch h2
      rw [hch] at h3
      have h4 := ri_stable w t Entry.dirE (Or.inl rfl) fs3 bp rest h3
      rw [hrest] at h4
      exact h4
    · rcases List.mem_append.mp hq2 with hq3 | hq4
      · have h3 := ih1 fs2 fs3 t3 hch q hq3 t ht hpre
        have h4 := ri_stable w t Entry.dirE (Or.inl rfl) fs3 bp rest h3
        rw [hrest] at h4
        exact h4
      · exact ih2 fs3 fs' t4 hrest q hq4 t ht hpre

theorem ri_noop (w : FsPath → Bool) (hw : ∀ p, w p = true) (fs : FS) (bp : FsPath)
    (st : List (String × Node))
    (hd : ∀ p ∈ dirPaths bp st, fs p = some Entry.dirE)
    (hf : ∀ p ∈ filePaths bp st, fs p = some (Entry.fileE ""))
    (hpok : ∀ q ∈ dirPaths bp st, ∀ t, t ≠ [] → t <+: q → fs t = some Entry.dirE) :
    ∃ tr, run_items w fs bp st = .ok fs tr := by
  revert hd hf hpok
  induction bp, st using filePaths.induct with
  | case1 bp => intro _ _ _; exact ⟨[], ri_nil w fs bp⟩
  | case2 bp nm rest ih =>
    intro hd hf hpok
    have hfe : fs (bp ++ [nm]) = some (Entry.fileE "") :=
      hf (bp ++ [nm]) (by rw [fp_file]; exact List.mem_cons_self _ _)
    have ho : openW w fs (bp ++ [nm]) = .ok fs [Ev.touch (bp ++ [nm])] := by
      rw [openW.eq_def]
      simp only [hfe]
      rw [if_pos (hw (bp ++ [nm]))]
      rw [FS.set_same fs (bp ++ [nm]) (Entry.fileE "") hfe]
    obtain ⟨tr2, hrest⟩ := ih
      (fun p hp => hd p (by rwa [dp_file]))
      (fun p hp => hf p (by rw [fp_file]; exact List.mem_cons_of_mem _ hp))
      (fun q hq => hpok q (by rwa [dp_file]))
    refine ⟨[Ev.touch (bp ++ [nm])] ++ tr2, ?_⟩
    rw [ri_file, ho]
    simp only [Out.seq]
    rw [hrest]
    rfl
  | case3 bp nm ch rest ih1 ih2 =>
    intro hd hf hpok
    have hde : fs (bp ++ [nm]) = some Entry.dirE :=
      hd (bp ++ [nm]) (by rw [dp_dir]; exact List.mem_cons_self _ _)
    have hmk : makedirs w true fs (bp ++ [nm]) = .ok fs [] :=
      makedirs_noop w fs (bp ++ [nm])
        (hpok (bp ++ [nm]) (by rw [dp_dir]; exact List.mem_cons_self _ _))
    have hen : ensure_base w fs (bp ++ [nm]) = .ok fs [] :=
      en_present w fs (bp ++ [nm]) Entry.dirE hde
    obtain ⟨tr1, hch⟩ := ih1
      (fun p hp => hd p (by
        rw [dp_dir]; exact List.mem_cons_of_mem _ (List.mem_append.mpr (Or.inl hp))))
      (fun p hp => hf p (by rw [fp_dir]; exact List.mem_append.mpr (Or.inl hp)))
      (fun q hq => hpok q (by
        rw [dp_dir]; exact List.mem_cons_of_mem _ (List.mem_append.mpr (Or.inl hq))))
    obtain ⟨tr2, hrest⟩ := ih2
      (fun p hp => hd p (by
        rw [dp_dir]; exact List.mem_cons_of_mem _ (List.mem_append.mpr (Or.inr hp))))
      (fun p hp => hf p (by rw [fp_dir]; exact List.mem_append.mpr (Or.inr hp)))
      (fun q hq => hpok q (by
        rw [dp_dir]; exact List.mem_cons_of_mem _ (List.mem_append.mpr (Or.inr hq))))
    refine ⟨[] ++ ([] ++ (tr1 ++ tr2)), ?_⟩
    rw [ri_dir, hmk]
    simp only [Out.seq]
    rw [hen]
    simp only [Out.seq, Out.seq_pre]
    rw [hch]
    simp only [Out.seq, Out.seq_pre]
    rw [hrest]
    rfl

theorem ri_append (w : FsPath → Bool) (fs : FS) (bp : FsPath)
    (st st2 : List (String × Node)) :
    run_items w fs bp (st ++ st2) =
      (run_items w fs bp st).seq fun f => run_items w f bp st2 := by
  induction fs, bp, st using run_items.induct w with
  | case1 fs bp =>
    rw [List.nil_append, ri_nil]
    show run_items w fs bp st2 = (run_items w fs bp st2).pre []
    rw [Out.pre_nil]
  | case2 fs bp nm rest ih =>
    show run_items w fs bp ((nm, .file) :: (rest ++ st2)) = _
    rw [ri_file w fs bp nm (rest ++ st2), ri_file w fs bp nm rest, Out.seq_assoc]
    exact congrArg _ (funext fun fs1 => ih fs1)
  | case3 fs bp nm ch rest ih1 ih2 =>
    show run_items w fs bp ((nm, .dir ch) :: (rest ++ st2)) = _
    rw [ri_dir w fs bp nm ch (rest ++ st2), ri_dir w fs bp nm ch rest, Out.seq_assoc]
    refine congrArg _ (funext fun fs1 => ?_)
    rw [Out.seq_assoc]
    refine congrArg _ (funext fun fs2 => ?_)
    rw [Out.seq_assoc]
    refine congrArg _ (funext fun fs3 => ?_)
    exact ih2 fs3

theorem dl_nil : depthL [] = 0 := by rw [depthL]

theorem dl_file (nm : String) (rest : List (String × Node)) :
    depthL ((nm, .file) :: rest) = depthL rest := by rw [depthL]

theorem dl_dir (nm : String) (ch rest : List (String × Node)) :
    depthL ((nm, .dir ch) :: rest) = max (1 + depthL ch) (depthL rest) := by
  rw [depthL]

theorem fuel_eq (w : FsPath → Bool) (fuel : Nat) (fs : FS) (bp : FsPath)
    (st : List (String × Node)) (hd : depthL st ≤ fuel) :
    run_items_fuel w fuel fs bp st = some (run_items w fs bp st) := by
  revert hd
  induction fuel, fs, bp, st using run_items_fuel.induct w with
  | case1 x fs x1 =>
    intro _
    rw [run_items_fuel, ri_nil]
  | case2 fuel fs bp nm rest fs1 t1 ho ih =>
    intro hd
    rw [run_items_fuel, ho, ri_file, ho]
    dsimp only
    rw [ih (by rwa [dl_file] at hd)]
    simp only [Option.map, Out.seq]
  | case3 fuel fs bp nm rest fs1 t1 e ho =>
    intro hd
    rw [run_items_fuel, ho, ri_file, ho]
    dsimp only
    simp only [Out.seq]
  | case4 fs bp nm ch rest =>
    intro hd
    rw [dl_dir] at hd
    omega
  | case5 fuel fs bp nm ch rest fs1 t1 e hmk =>
    intro hd
    rw [run_items_fuel, hmk, ri_dir, hmk]
    dsimp only
    simp only [Out.seq]
  | case6 fuel fs bp nm ch rest fs1 t1 hmk fs2 t2 e hen =>
    intro hd
    rw [run_items_fuel, hmk, ri_dir, hmk]
    dsimp only
    rw [hen]
    dsimp only
    simp only [Out.seq]
    rw [hen]
    simp only [Out.seq, Out.pre]
  | case7 fuel fs bp nm ch rest fs1 t1 hmk fs2 t2 hen hnone ih =>
    intro hd
    have hch : depthL ch ≤ fuel := by rw [dl_dir] at hd; omega
    rw [ih hch] at hnone
    exact Option.noConfusion hnone
  | case8 fuel fs bp nm ch rest fs1 t1 hmk fs2 t2 hen fs3 t3 e hsome ih =>
    intro hd
    have hch : depthL ch ≤ fuel := by rw [dl_dir] at hd; omega
    rw [ih hch] at hsome
    have hch2 : run_items w fs2 (bp ++ [nm]) ch = .err fs3 t3 e := Option.some.inj hsome
    rw [run_items_fuel, hmk, ri_dir, hmk]
    dsimp only
    rw [hen]
    dsimp only
    rw [ih hch, hch2]
    dsimp only
    simp only [Out.seq]
    rw [hen]
    simp only [Out.seq, Out.seq_pre]
    rw [hch2]
    simp only [Out.seq, Out.pre, Out.pre_pre]
  | case9 fuel fs bp nm ch rest fs1 t1 hmk fs2 t2 hen fs3 t3 hsome ih ih2 =>
    intro hd
    have hch : depthL ch ≤ fuel := by rw [dl_dir] at hd; omega
    have hrest : depthL rest ≤ fuel + 1 := by rw [dl_dir] at hd; omega
    rw [ih hch] at hsome
    have hch2 : run_items w fs2 (bp ++ [nm]) ch = .ok fs3 t3 := Option.some.inj hsome
    rw [run_items_fuel, hmk, ri_dir, hmk]
    dsimp only
    rw [hen]
    dsimp only
    rw [ih hch, hch2]
    dsimp only
    rw [ih2 hrest]
    simp only [Out.seq]
    rw [hen]
    simp only [Out.seq, Out.seq_pre]
    rw [hch2]
    simp only [Out.seq, Out.seq_pre, Option.map]

theorem ri_exec (w : FsPath → Bool) (fs : FS) (bp : FsPath)
    (st : List (String × Node)) : ExecI w fs bp st (run_items w fs bp st) := by
  induction fs, bp, st using run_items.induct w with
  | case1 fs bp => rw [ri_nil]; exact ExecI.nil fs bp
  | case2 fs bp nm rest ih =>
    rw [ri_file]
    cases ho : openW w fs (bp ++ [nm]) with
    | ok fs1 t1 =>
      simp only [Out.seq]
      exact ExecI.fileOk fs bp nm rest fs1 t1 _ ho (ih fs1)
    | err fs1 t1 e =>
      simp only [Out.seq]
      exact ExecI.fileErr fs bp nm rest fs1 t1 e ho
  | case3 fs bp nm ch rest ih1 ih2 =>
    rw [ri_dir]
    cases hmk : makedirs w true fs (bp ++ [nm]) with
    | err fs1 t1 e =>
      simp only [Out.seq]
      exact ExecI.dirErrMk fs bp nm ch rest fs1 t1 e hmk
    | ok fs1 t1 =>
      simp only [Out.seq]
      cases hen : ensure_base w fs1 (bp ++ [nm]) with
      | err fs2 t2 e =>
        simp only [Out.seq, Out.pre]
        exact ExecI.dirErrEnsure fs bp nm ch rest fs1 t1 fs2 t2 e hmk hen
      | ok fs2 t2 =>
        simp only [Out.seq, Out.seq_pre]
        cases hch : run_items w fs2 (bp ++ [nm]) ch with
        | err fs3 t3 e =>
          simp only [Out.seq, Out.pre, Out.pre_pre]
          have hche := ih1 fs2
          rw [hch] at hche
          exact ExecI.dirErrCh fs bp nm ch rest fs1 t1 fs2 t2 fs3 t3 e hmk hen hche
        | ok fs3 t3 =>
          simp only [Out.seq, Out.seq_pre]
          have hche := ih1 fs2
          rw [hch] at hche
          have hd := ExecI.dirOk fs bp nm ch rest fs1 t1 fs2 t2 fs3 t3
            (run_items w fs3 bp rest) hmk hen hche (ih2 fs3)
          simpa [Out.pre_pre] using hd

theorem execI_run (w : FsPath → Bool) (fs : FS) (bp : FsPath)
    (st : List (String × Node)) (o : Out) (h : ExecI w fs bp st o) :
    o = run_items w fs bp st := by
  induction h with
  | nil fs bp => rw [ri_nil]
  | fileErr fs bp nm rest fs1 t1 e hop =>
    rw [ri_file, hop]
    rfl
  | fileOk fs bp nm rest fs1 t1 o hop hrest ih =>
    rw [ri_file, hop]
    simp only [Out.seq]
    rw [← ih]
  | dirErrMk fs bp nm ch rest fs1 t1 e hmk =>
    rw [ri_dir, hmk]
    rfl
  | dirErrEnsure fs bp nm ch rest fs1 t1 fs2 t2 e hmk hen =>
    rw [ri_dir, hmk]
    simp only [Out.seq]
    rw [hen]
    simp only [Out.seq, Out.pre]
  | dirErrCh fs bp nm ch rest fs1 t1 fs2 t2 fs3 t3 e hmk hen hch ih =>
    rw [ri_dir, hmk]
    simp only [Out.seq]
    rw [hen]
    simp only [Out.seq, Out.seq_pre]
    rw [← ih]
    simp only [Out.seq, Out.pre, Out.pre_pre]
  | dirOk fs bp nm ch rest fs1 t1 fs2 t2 fs3 t3 o hmk hen hch hrest ih1 ih2 =>
    rw [ri_dir, hmk]
    simp only [Out.seq]
    rw [hen]
    simp only [Out.seq, Out.seq_pre]
    rw [← ih1]
    simp only [Out.seq, Out.seq_pre]
    rw [← ih2]

theorem cs_exec (w : FsPath → Bool) (fs : FS) (bp : FsPath)
    (st : List (String × Node)) : ExecCS w fs bp st (create_structure w fs bp st) := by
  rw [cs_eq]
  cases hen : ensure_base w fs bp with
  | ok fs1 t1 =>
    simp only [Out.seq]
    exact ExecCS.ensureOk fs bp st fs1 t1 _ hen (ri_exec w fs1 bp st)
  | err fs1 t1 e =>
    simp only [Out.seq]
    exact ExecCS.ensureErr fs bp st fs1 t1 e hen

theorem execCS_run (w : FsPath → Bool) (fs : FS) (bp : FsPath)
    (st : List (String × Node)) (o : Out) (h : ExecCS w fs bp st o) :
    o = create_structure w fs bp st := by
  cases h with
  | ensureErr fs1 t1 e hen =>
    rw [cs_eq, hen]
    rfl
  | ensureOk fs1 t1 o hen hrun =>
    rw [cs_eq, hen]
    simp only [Out.seq]
    rw [execI_run w fs1 bp st o hrun]

/-! ### create_structure-level lemmas -/

theorem cs_ok_chain (w : FsPath → Bool) (fs : FS) (bp : FsPath)
    (st : List (String × Node)) (fs' : FS) (tr : List Ev)
    (hok : create_structure w fs bp st = .ok fs' tr) :
    ∃ fsa ta tb, ensure_base w fs bp = .ok fsa ta ∧
      run_items w fsa bp st = .ok fs' tb ∧ tr = ta ++ tb := by
  rw [cs_eq] at hok
  cases hen : ensure_base w fs bp with
  | err fsa ta e => rw [hen] at hok; exact Out.noConfusion hok
  | ok fsa ta =>
    rw [hen] at hok
    simp only [Out.seq] at hok
    cases hrun : run_items w fsa bp st with
    | err fsb tb e =>
      rw [hrun] at hok; simp only [Out.pre] at hok; exact Out.noConfusion hok
    | ok fsb tb =>
      rw [hrun] at hok
      simp only [Out.pre] at hok
      obtain ⟨rfl, rfl⟩ : fsb = fs' ∧ ta ++ tb = tr := by cases hok; exact ⟨rfl, rfl⟩
      exact ⟨fsa, ta, tb, rfl, hrun, rfl⟩

theorem cs_stable (w : FsPath → Bool) (p : FsPath) (e : Entry)
    (he : e = Entry.dirE ∨ e = Entry.fileE "") (fs : FS) (bp : FsPath)
    (st : List (String × Node)) (h : fs p = some e) :
    (create_structure w fs bp st).stateOf p = some e := by
  rw [cs_eq]
  cases hen : ensure_base w fs bp with
  | err fsa ta er =>
    have h2 := en_pres w fs bp p e h
    rw [hen] at h2
    simpa [Out.seq, Out.stateOf] using h2
  | ok fsa ta =>
    have h2 : fsa p = some e := by
      have h3 := en_pres w fs bp p e h
      rw [hen] at h3; exact h3
    simp only [Out.seq, Out.stateOf_pre]
    exact ri_stable w p e he fsa bp st h2

theorem cs_pres_nonfile (w : FsPath → Bool) (p : FsPath) (e : Entry) (fs : FS)
    (bp : FsPath) (st : List (String × Node)) (h : fs p = some e)
    (hnf : p ∉ filePaths bp st) :
    (create_structure w fs bp st).stateOf p = some e := by
  rw [cs_eq]
  cases hen : ensure_base w fs bp with
  | err fsa ta er =>
    have h2 := en_pres w fs bp p e h
    rw [hen] at h2
    simpa [Out.seq, Out.stateOf] using h2
  | ok fsa ta =>
    have h2 : fsa p = some e := by
      have h3 := en_pres w fs bp p e h
      rw [hen] at h3; exact h3
    simp only [Out.seq, Out.stateOf_pre]
    exact ri_pres_nonfile w p e fsa bp st h2 hnf

theorem cs_ok_establishes (w : FsPath → Bool) (fs : FS) (bp : FsPath)
    (st : List (String × Node)) (fs' : FS) (tr : List Ev)
    (hok : create_structure w fs bp st = .ok fs' tr) :
    (∀ p ∈ dirPaths bp st, fs' p = some Entry.dirE) ∧
      (∀ p ∈ filePaths bp st, fs' p = some (Entry.fileE "")) := by
  obtain ⟨fsa, ta, tb, hen, hrun, rfl⟩ := cs_ok_chain w fs bp st fs' tr hok
  exact ri_ok_establishes w fsa bp st fs' tb hrun

theorem cs_ok_prefixes (w : FsPath → Bool) (fs : FS) (bp : FsPath)
    (st : List (String × Node)) (fs' : FS) (tr : List Ev)
    (hok : create_structure w fs bp st = .ok fs' tr) (q : FsPath)
    (hq : q ∈ dirPaths bp st) (t : FsPath) (ht : t ≠ []) (hpre : t <+: q) :
    fs' t = some Entry.dirE := by
  obtain ⟨fsa, ta, tb, hen, hrun, rfl⟩ := cs_ok_chain w fs bp st fs' tr hok
  exact ri_ok_prefixes w fsa bp st fs' tb hrun q hq t ht hpre

theorem cs_evHolds (w : FsPath → Bool) (fs : FS) (bp : FsPath)
    (st : List (String × Node)) (ev : Ev)
    (hm : ev ∈ (create_structure w fs bp st).traceOf) :
    evHolds (create_structure w fs bp st).stateOf ev := by
  rw [cs_eq] at hm ⊢
  cases hen : ensure_base w fs bp with
  | err fsa ta er =>
    rw [hen] at hm
    simp only [Out.seq, Out.traceOf, Out.stateOf] at hm ⊢
    have h2 := en_evHolds w fs bp ev (by rw [hen]; exact hm)
    rw [hen] at h2
    exact h2
  | ok fsa ta =>
    rw [hen] at hm
    simp only [Out.seq, Out.traceOf_pre, Out.stateOf_pre] at hm ⊢
    rcases List.mem_append.mp hm with h1 | h2
    · have h3 := en_evHolds w fs bp ev (by rw [hen]; exact h1)
      rw [hen] at h3
      exact ri_evStable w fsa bp st ev h3
    · exact ri_evHolds w fsa bp st ev h2

theorem cs_parentsFirst (w : FsPath → Bool) (fs : FS) (bp : FsPath)
    (st : List (String × Node)) :
    parentsFirst fs (create_structure w fs bp st).traceOf = true := by
  rw [cs_eq]
  cases hen : ensure_base w fs bp with
  | err fsa ta er =>
    have h2 := en_parentsFirst w fs bp
    rw [hen] at h2
    simpa [Out.seq, Out.traceOf] using h2
  | ok fsa ta =>
    have h2 := en_parentsFirst w fs bp
    rw [hen] at h2
    simp only [Out.traceOf] at h2
    have hs : fsa = applyEvs fs ta := by
      have h0 := en_sound w fs bp; rw [hen] at h0; exact h0
    simp only [Out.seq, Out.traceOf_pre]
    rw [parentsFirst_append, ← hs, h2]
    simpa using ri_parentsFirst w fsa bp st

theorem cs_sound (w : FsPath → Bool) (fs : FS) (bp : FsPath)
    (st : List (String × Node)) :
    (create_structure w fs bp st).stateOf =
      applyEvs fs (create_structure w fs bp st).traceOf := by
  rw [cs_eq]
  cases hen : ensure_base w fs bp with
  | err fsa ta er =>
    have h0 := en_sound w fs bp
    rw [hen] at h0
    simpa [Out.seq, Out.stateOf, Out.traceOf] using h0
  | ok fsa ta =>
    have hs : fsa = applyEvs fs ta := by
      have h0 := en_sound w fs bp; rw [hen] at h0; exact h0
    simp only [Out.seq, Out.stateOf_pre, Out.traceOf_pre]
    rw [applyEvs_append, ← hs]
    exact ri_sound w fsa bp st

theorem cs_append (w : FsPath → Bool) (fs : FS) (bp : FsPath)
    (st st2 : List (String × Node)) :
    create_structure w fs bp (st ++ st2) =
      (create_structure w fs bp st).seq fun f => run_items w f bp st2 := by
  rw [cs_eq, cs_eq, Out.seq_assoc]
  exact congrArg _ (funext fun f => ri_append w f bp st st2)

theorem ensure_nil (w : FsPath → Bool) (fs : FS) :
    ensure_base w fs [] = .ok fs [] := by
  rw [ensure_base.eq_def]
  cases h : fs [] with
  | none => rfl
  | some e => rfl

theorem filePaths_longer (bp : FsPath) (st : List (String × Node)) (q : FsPath)
    (hq : q ∈ filePaths bp st) : ∃ t, t ≠ [] ∧ q = bp ++ t := by
  revert hq
  induction bp, st using filePaths.induct with
  | case1 bp => intro hq; rw [fp_nil] at hq; exact absurd hq (List.not_mem_nil q)
  | case2 bp nm rest ih =>
    intro hq
    rw [fp_file] at hq
    rcases List.mem_cons.mp hq with rfl | hq2
    · exact ⟨[nm], by simp, rfl⟩
    · exact ih hq2
  | case3 bp nm ch rest ih1 ih2 =>
    intro hq
    rw [fp_dir] at hq
    rcases List.mem_append.mp hq with hq1 | hq2
    · obtain ⟨t, ht, rfl⟩ := ih1 hq1
      exact ⟨nm :: t, by simp, (List.append_cons bp nm t).symm⟩
    · exact ih2 hq2

theorem base_not_filePath (bp : FsPath) (st : List (String × Node)) :
    bp ∉ filePaths bp st := by
  intro hq
  obtain ⟨t, ht, heq⟩ := filePaths_longer bp st bp hq
  have : bp.length = bp.length + t.length := by
    conv_lhs => rw [heq]
    simp [List.length_append]
  have ht2 : t.length = 0 := by omega
  exact ht (List.eq_nil_of_length_eq_zero ht2)

theorem cs_idempotent (w : FsPath → Bool) (hw : ∀ p, w p = true) (fs : FS)
    (bp : FsPath) (st : List (String × Node)) (fs1 : FS) (tr1 : List Ev)
    (h1 : create_structure w fs bp st = .ok fs1 tr1) :
    ∃ tr2, create_structure w fs1 bp st = .ok fs1 tr2 := by
  obtain ⟨fsa, ta, tb, hen, hrun, rfl⟩ := cs_ok_chain w fs bp st fs1 tr1 h1
  obtain ⟨hdirs, hfiles⟩ := ri_ok_establishes w fsa bp st fs1 tb hrun
  have hpok := ri_ok_prefixes w fsa bp st fs1 tb hrun
  have hen2 : ensure_base w fs1 bp = .ok fs1 [] := by
    by_cases hbp : bp = []
    · subst hbp; exact ensure_nil w fs1
    · have hpres : ∃ e2, fs1 bp = some e2 := by
        cases hfs : fs bp with
        | some e =>
          have hno : ensure_base w fs bp = .ok fs [] := en_present w fs bp e hfs
          rw [hen] at hno
          obtain ⟨rfl, rfl⟩ : fsa = fs ∧ ta = [] := by cases hno; exact ⟨rfl, rfl⟩
          have h2 := ri_pres_nonfile w bp e fsa bp st hfs (base_not_filePath bp st)
          rw [hrun] at h2
          exact ⟨e, h2⟩
        | none =>
          have hmk : makedirs w false fs bp = .ok fsa ta := by
            rw [ensure_base.eq_def, hfs] at hen
            exact hen
          have h2 := makedirs_ok_target w false fs bp fsa ta hmk hbp
          have h3 := ri_stable w bp Entry.dirE (Or.inl rfl) fsa bp st h2
          rw [hrun] at h3
          exact ⟨Entry.dirE, h3⟩
      obtain ⟨e2, he2⟩ := hpres
      exact en_present w fs1 bp e2 he2
  obtain ⟨tr2, hrun2⟩ := ri_noop w hw fs1 bp st hdirs hfiles hpok
  refine ⟨tr2, ?_⟩
  rw [cs_eq, hen2]
  simp only [Out.seq]
  rw [hrun2]
  rfl

theorem cs_unwritable (w : FsPath → Bool) (fs : FS) (bp : FsPath) (nm : String)
    (c : Node) (rest : List (String × Node)) (hbp : bp ≠ [])
    (hpre : ∀ t, t ≠ [] → t <+: bp → fs t = some Entry.dirE)
    (hw : w bp = false) (habs : fs (bp ++ [nm]) = none) :
    create_structure w fs bp ((nm, c) :: rest) =
      .err fs [] (.permissionDenied (bp ++ [nm])) := by
  have hb : fs bp = some Entry.dirE := hpre bp hbp List.prefix_rfl
  rw [cs_eq, en_present w fs bp Entry.dirE hb]
  simp only [Out.seq]
  cases c with
  | file =>
    rw [ri_file]
    have h1 : isDirAt fs (bp ++ [nm]).dropLast = true := by
      rw [List.dropLast_concat]
      exact isDirAt_of_dir fs bp hb
    have h2 : w (bp ++ [nm]).dropLast = false := by
      rw [List.dropLast_concat]
      exact hw
    have ho : openW w fs (bp ++ [nm]) =
        .err fs [] (.permissionDenied (bp ++ [nm])) := by
      rw [openW.eq_def]
      simp only [habs]
      rw [if_pos h1, if_neg (by rw [List.dropLast_concat]; simp [hw])]
    rw [ho]
    rfl
  | dir ch =>
    rw [ri_dir]
    have hmk : makedirs w true fs (bp ++ [nm]) =
        .err fs [] (.permissionDenied (bp ++ [nm])) := by
      have h2 := mk_last_absent w true fs [] bp nm
        (fun t ht hp => by simpa using hpre t ht hp)
        (by simpa using habs) (by simpa using hw)
      simpa [makedirs] using h2
    rw [hmk]
    rfl

theorem execCS_det (w : FsPath → Bool) (fs : FS) (bp : FsPath)
    (st : List (String × Node)) (o1 o2 : Out) (h1 : ExecCS w fs bp st o1)
    (h2 : ExecCS w fs bp st o2) : o1 = o2 := by
  rw [execCS_run w fs bp st o1 h1, execCS_run w fs bp st o2 h2]

theorem FS.emp_apply (p : FsPath) : FS.emp p = none := rfl

theorem FS.set_apply (fs : FS) (p q : FsPath) (e : Entry) :
    (fs.set p e) q = if q = p then some e else fs q := rfl

/-! ### Concrete runs used as witnesses -/

def wAll : FsPath → Bool := fun _ => true

def stW : List (String × Node) :=
  [("a.txt", .file), ("sub", .dir [("b.txt", .file)])]

def fsW : FS :=
  (((FS.emp.set ["out"] .dirE).set ["out", "a.txt"] (.fileE "")).set
    ["out", "sub"] .dirE).set ["out", "sub", "b.txt"] (.fileE "")

def trW : List Ev :=
  [.mkdir ["out"], .touch ["out", "a.txt"], .mkdir ["out", "sub"],
   .touch ["out", "sub", "b.txt"]]

def fsF : FS := FS.emp.set ["lib"] (.fileE "x")

def fs5 : FS := (FS.emp.set ["out"] .dirE).set ["out", "b"] (.fileE "q")

def st5 : List (String × Node) := [("a", .file), ("b", .dir [("c", .file)])]

def fs5x : FS := fs5.set ["out", "a"] (.fileE "")

def fs6 : FS := (FS.emp.set ["out"] .dirE).set ["out", "keep.txt"] (.fileE "data")

def fs7 : FS := (FS.emp.set ["out"] .dirE).set ["out", "a.txt"] (.fileE "hello")

def fs7x : FS :=
  ((fs7.set ["out", "a.txt"] (.fileE "")).set ["out", "sub"] .dirE).set
    ["out", "sub", "b.txt"] (.fileE "")

def w8 : FsPath → Bool := fun p => decide (p ≠ ["lib"])

def fs8 : FS :=
  ((FS.emp.set ["lib"] .dirE).set ["lib", "main.dart"] (.fileE "x")).set
    ["lib", "core"] .dirE

def st8 : List (String × Node) :=
  [("main.dart", .file), ("core", .dir [("x.dart", .file)]), ("models", .dir [])]

def fs8x : FS :=
  (fs8.set ["lib", "main.dart"] (.fileE "")).set ["lib", "core", "x.dart"] (.fileE "")

def tr8 : List Ev := [.touch ["lib", "main.dart"], .touch ["lib", "core", "x.dart"]]

def fs8b : FS := FS.emp.set ["lib"] .dirE

/-! ### The claims -/

/-- C1: after a successful run of the materializer, every directory node of
the tree has a directory at its computed path and every file marker has a
file at its computed path whose contents are empty (zero length, truncated
if it pre-existed). -/
theorem claim_c1 (w : FsPath → Bool) (fs : FS) (bp : FsPath)
    (st : List (String × Node)) (fs2 : FS) (tr : List Ev)
    (hok : create_structure w fs bp st = .ok fs2 tr) :
    (∀ p ∈ dirPaths bp st, fs2 p = some Entry.dirE) ∧
      (∀ p ∈ filePaths bp st, fs2 p = some (Entry.fileE "")) :=
  cs_ok_establishes w fs bp st fs2 tr hok

theorem claim_c1_witness :
    create_structure wAll FS.emp ["out"] stW = Out.ok fsW trW ∧
      fsW ["out", "sub"] = some Entry.dirE ∧
      fsW ["out", "a.txt"] = some (Entry.fileE "") := by
  have hrun : create_structure wAll FS.emp ["out"] stW = Out.ok fsW trW := by
    simp [cs_eq, ri_nil, ri_file, ri_dir, ensure_base, makedirs, mkdirsGo, openW,
      isDirAt, Out.seq, Out.pre, FS.set_apply, FS.emp_apply, wAll, stW, fsW, trW]
  have h := claim_c1 wAll FS.emp ["out"] stW fsW trW hrun
  exact ⟨hrun,
    h.1 ["out", "sub"] (by simp [stW, dp_file, dp_dir, dp_nil]),
    h.2 ["out", "a.txt"] (by simp [stW, fp_file, fp_dir, fp_nil])⟩

/-- C2 counterexample: the claim says that once step 1 (ensuring the base
path) completes, a directory exists at the base path, for every pre-existing
state of the base path.  But the code only checks os.path.exists: when a
plain file occupies the base path, step 1 completes as a silent no-op and no
directory exists there. -/
theorem claim_c2_counterexample :
    ensure_base wAll fsF ["lib"] = Out.ok fsF [] ∧
      ¬ fsF ["lib"] = some Entry.dirE := by
  constructor
  · simp [ensure_base, fsF, FS.set_apply, FS.emp_apply]
  · simp [fsF, FS.set_apply, FS.emp_apply]

/-- C2 (amended): for a nonempty base path, step 1 of the materializer is a
no-op without error whenever any entry (directory or plain file) already
occupies the base path; when the base path is absent and step 1 succeeds, a
directory has been created at the base path and every pre-existing entry is
untouched.  A directory at the base path is therefore guaranteed only when
the base path was absent or already a directory. -/
theorem claim_c2 (w : FsPath → Bool) (fs : FS) (bp : FsPath) (hbp : bp ≠ []) :
    (∀ e, fs bp = some e → ensure_base w fs bp = .ok fs []) ∧
      (fs bp = none → ∀ fs2 tr, ensure_base w fs bp = .ok fs2 tr →
        fs2 bp = some Entry.dirE ∧ ∀ p e2, fs p = some e2 → fs2 p = some e2) := by
  constructor
  · intro e he
    exact en_present w fs bp e he
  · intro h0 fs2 tr hok
    have hmk : makedirs w false fs bp = .ok fs2 tr := by
      rw [ensure_base.eq_def, h0] at hok
      exact hok
    refine ⟨makedirs_ok_target w false fs bp fs2 tr hmk hbp, ?_⟩
    intro p e2 he2
    have h3 := makedirs_pres w false fs bp p e2 he2
    rw [hmk] at h3
    exact h3

theorem claim_c2_witness :
    ensure_base wAll fsF ["lib"] = Out.ok fsF [] ∧
      (FS.emp.set ["lib"] Entry.dirE) ["lib"] = some Entry.dirE := by
  refine ⟨(claim_c2 wAll fsF ["lib"] (by simp)).1 (Entry.fileE "x")
    (by simp [fsF, FS.set_apply, FS.emp_apply]), ?_⟩
  exact ((claim_c2 wAll FS.emp ["lib"] (by simp)).2 rfl
    (FS.emp.set ["lib"] Entry.dirE) [Ev.mkdir ["lib"]]
    (by simp [ensure_base, makedirs, mkdirsGo, FS.emp_apply, Out.pre, wAll])).1

/-- C3: when every path is writable and a first run of the materializer
succeeds, a second run against the same base path and tree also succeeds,
and its final filesystem state is exactly the state after the first run
(files are truncated again, directories are left in place; no entry is
duplicated or destroyed). -/
theorem claim_c3 (w : FsPath → Bool) (hw : ∀ p, w p = true) (fs : FS)
    (bp : FsPath) (st : List (String × Node)) (fs1 : FS) (tr1 : List Ev)
    (h1 : create_structure w fs bp st = .ok fs1 tr1) :
    ∃ tr2, create_structure w fs1 bp st = .ok fs1 tr2 :=
  cs_idempotent w hw fs bp st fs1 tr1 h1

theorem claim_c3_witness :
    ∃ tr2, create_structure wAll fsW ["out"] stW = Out.ok fsW tr2 :=
  claim_c3 wAll (fun _ => rfl) FS.emp ["out"] stW fsW trW (by
    simp [cs_eq, ri_nil, ri_file, ri_dir, ensure_base, makedirs, mkdirsGo, openW,
      isDirAt, Out.seq, Out.pre, FS.set_apply, FS.emp_apply, wAll, stW, fsW, trW])

/-- C4: parent-before-child ordering.  Every run of the materializer emits
its creation events so that whenever an event creates an entry (a mkdir, or
a touch at a path that does not exist yet), the parent path of that entry is
an existing directory in the filesystem state built from all earlier events
of the run; moreover that intermediate state is faithful: the run's final
state is exactly the initial state with the whole trace applied. -/
theorem claim_c4 (w : FsPath → Bool) (fs : FS) (bp : FsPath)
    (st : List (String × Node)) :
    parentsFirst fs (create_structure w fs bp st).traceOf = true ∧
      (create_structure w fs bp st).stateOf =
        applyEvs fs (create_structure w fs bp st).traceOf :=
  ⟨cs_parentsFirst w fs bp st, cs_sound w fs bp st⟩

/-- C5: if a run of the materializer fails, the error propagates to the
caller unchanged and any tree entries listed after the failure point are
never processed (appending further entries to the tree changes nothing about
the outcome); every entry created before the failing operation remains on
disk in the failure state (a made directory is still a directory, a touched
file is still an empty file): no rollback and no retry. -/
theorem claim_c5 (w : FsPath → Bool) (fs : FS) (bp : FsPath)
    (st : List (String × Node)) (fs2 : FS) (tr : List Ev) (e : FsError)
    (herr : create_structure w fs bp st = .err fs2 tr e) :
    (∀ rest2, create_structure w fs bp (st ++ rest2) = .err fs2 tr e) ∧
      ∀ ev ∈ tr, evHolds fs2 ev := by
  constructor
  · intro rest2
    rw [cs_append, herr]
    rfl
  · intro ev hm
    have h2 := cs_evHolds w fs bp st ev (by rw [herr]; exact hm)
    rw [herr] at h2
    exact h2

theorem claim_c5_witness :
    create_structure wAll fs5 ["out"] (st5 ++ [("z", Node.file)]) =
      Out.err fs5x [Ev.touch ["out", "a"]] (FsError.fileExists ["out", "b"]) ∧
      fs5x ["out", "a"] = some (Entry.fileE "") := by
  have herr : create_structure wAll fs5 ["out"] st5 =
      Out.err fs5x [Ev.touch ["out", "a"]] (FsError.fileExists ["out", "b"]) := by
    simp [cs_eq, ri_nil, ri_file, ri_dir, ensure_base, makedirs, mkdirsGo, openW,
      isDirAt, Out.seq, Out.pre, FS.set_apply, FS.emp_apply, wAll, st5, fs5, fs5x]
  have h := claim_c5 wAll fs5 ["out"] st5 fs5x [Ev.touch ["out", "a"]]
    (FsError.fileExists ["out", "b"]) herr
  exact ⟨h.1 [("z", Node.file)], h.2 (Ev.touch ["out", "a"]) (by simp)⟩

/-- C6: frame property.  A pre-existing entry whose path lies under the base
path but is not the computed path of any node of the tree is left unchanged
(same kind, same contents) by a run of the materializer, whether the run
succeeds or fails. -/
theorem claim_c6 (w : FsPath → Bool) (fs : FS) (bp : FsPath)
    (st : List (String × Node)) (p : FsPath) (e : Entry) (h : fs p = some e)
    (hunder : ∃ q, q ≠ [] ∧ p = bp ++ q) (hnd : p ∉ dirPaths bp st)
    (hnf : p ∉ filePaths bp st) :
    (create_structure w fs bp st).stateOf p = some e :=
  cs_pres_nonfile w p e fs bp st h hnf

theorem claim_c6_witness :
    (create_structure wAll fs6 ["out"] stW).stateOf ["out", "keep.txt"] =
      some (Entry.fileE "data") :=
  claim_c6 wAll fs6 ["out"] stW ["out", "keep.txt"] (Entry.fileE "data")
    (by simp [fs6, FS.set_apply, FS.emp_apply])
    ⟨["keep.txt"], by simp, rfl⟩
    (by simp [stW, dp_file, dp_dir, dp_nil])
    (by simp [stW, fp_file, fp_dir, fp_nil])

/-- C7: truncation of pre-existing files.  If a file marker's computed path
already holds a file with some (possibly non-empty) contents before the run
and the run succeeds, the file ends up with empty contents: a plain
create-for-write that truncates, never preserving or appending. -/
theorem claim_c7 (w : FsPath → Bool) (fs : FS) (bp : FsPath)
    (st : List (String × Node)) (p : FsPath) (s : String)
    (h1 : fs p = some (Entry.fileE s)) (hs : s ≠ "") (hp : p ∈ filePaths bp st)
    (fs2 : FS) (tr : List Ev) (hok : create_structure w fs bp st = .ok fs2 tr) :
    fs2 p = some (Entry.fileE "") :=
  (cs_ok_establishes w fs bp st fs2 tr hok).2 p hp

theorem claim_c7_witness :
    fs7x ["out", "a.txt"] = some (Entry.fileE "") := by
  have hrun : create_structure wAll fs7 ["out"] stW =
      Out.ok fs7x [Ev.touch ["out", "a.txt"], Ev.mkdir ["out", "sub"],
        Ev.touch ["out", "sub", "b.txt"]] := by
    simp [cs_eq, ri_nil, ri_file, ri_dir, ensure_base, makedirs, mkdirsGo, openW,
      isDirAt, Out.seq, Out.pre, FS.set_apply, FS.emp_apply, wAll, stW, fs7, fs7x]
  exact claim_c7 wAll fs7 ["out"] stW ["out", "a.txt"] "hello"
    (by simp [fs7, FS.set_apply, FS.emp_apply]) (by simp)
    (by simp [stW, fp_file, fp_dir, fp_nil]) fs7x _ hrun

/-- C8 counterexample: the claim says an unwritable base path makes the run
fail with no entries created and the state unchanged.  On this input the
base directory lib is unwritable (creation inside it is denied), the run
does fail with permission denied, but before that failure it truncated the
pre-existing lib/main.dart and created a brand-new entry lib/core/x.dart
inside the writable pre-existing subdirectory lib/core: entries were created
and the state after the failed run differs from the state before it. -/
theorem claim_c8_counterexample :
    w8 ["lib"] = false ∧
      create_structure w8 fs8 ["lib"] st8 =
        Out.err fs8x tr8 (FsError.permissionDenied ["lib", "models"]) ∧
      fs8 ["lib", "core", "x.dart"] = none ∧
      fs8x ["lib", "core", "x.dart"] = some (Entry.fileE "") := by
  refine ⟨by simp [w8], ?_, ?_, ?_⟩
  · simp [cs_eq, ri_nil, ri_file, ri_dir, ensure_base, makedirs, mkdirsGo, openW,
      isDirAt, Out.seq, Out.pre, FS.set_apply, FS.emp_apply, w8, st8, fs8, fs8x, tr8]
  · simp [fs8, FS.set_apply, FS.emp_apply]
  · simp [fs8x, fs8, FS.set_apply, FS.emp_apply]

/-- C8 (amended): if the base path is nonempty, every nonempty prefix of it
(including the base path itself) is an existing directory, the base
directory is unwritable, and no entry exists yet at the computed path of the
tree's first child, then the run fails immediately with permission denied at
that child's path and creates no entries at all: the resulting state is
exactly the initial state and the event trace is empty. -/
theorem claim_c8 (w : FsPath → Bool) (fs : FS) (bp : FsPath) (nm : String)
    (c : Node) (rest : List (String × Node)) (hbp : bp ≠ [])
    (hpre : ∀ t, t ≠ [] → t <+: bp → fs t = some Entry.dirE)
    (hw : w bp = false) (habs : fs (bp ++ [nm]) = none) :
    create_structure w fs bp ((nm, c) :: rest) =
      .err fs [] (.permissionDenied (bp ++ [nm])) :=
  cs_unwritable w fs bp nm c rest hbp hpre hw habs

theorem claim_c8_witness :
    create_structure w8 fs8b ["lib"] [("main.dart", Node.file)] =
      Out.err fs8b [] (FsError.permissionDenied ["lib", "main.dart"]) := by
  refine claim_c8 w8 fs8b ["lib"] "main.dart" Node.file [] (by simp) ?_
    (by simp [w8]) (by simp [fs8b, FS.set_apply, FS.emp_apply])
  intro t ht hp
  obtain ⟨u, hu⟩ := hp
  cases t with
  | nil => exact absurd rfl ht
  | cons a t2 =>
    rw [List.cons_append] at hu
    injection hu with h1 h2
    obtain ⟨rfl, rfl⟩ := List.append_eq_nil.mp h2
    subst h1
    simp [fs8b, FS.set_apply]

/-- C9: the recursive walk terminates on every input tree, with recursion
depth bounded by the nesting depth of the tree: given at least depthL st
units of fuel, where one unit is consumed on each descent into a directory's
children, the fuel-indexed walk never runs out of fuel and computes exactly
the total walk function. -/
theorem claim_c9 (w : FsPath → Bool) (fuel : Nat) (fs : FS) (bp : FsPath)
    (st : List (String × Node)) (hd : depthL st ≤ fuel) :
    run_items_fuel w fuel fs bp st = some (run_items w fs bp st) :=
  fuel_eq w fuel fs bp st hd

theorem claim_c9_witness :
    run_items_fuel wAll 1 FS.emp ["out"] stW =
      some (run_items wAll FS.emp ["out"] stW) :=
  claim_c9 wAll 1 FS.emp ["out"] stW
    (by simp [stW, dl_file, dl_dir, dl_nil])

/-- C10: the materializer is deterministic.  Any two executions of
create_structure (as big-step derivations of the execution relation) from
the same filesystem state, writability oracle, base path and tree produce
the same outcome: the same sequence of created/written paths in the same
order, the same final state and error status, and in particular the same
single standard-output line (the success message naming the base directory)
on success. -/
theorem claim_c10 (w : FsPath → Bool) (fs : FS) (bp : FsPath)
    (st : List (String × Node)) (bd : String) (o1 o2 : Out)
    (h1 : ExecCS w fs bp st o1) (h2 : ExecCS w fs bp st o2) :
    o1 = o2 ∧ o1.traceOf = o2.traceOf ∧ stdoutOf bd o1 = stdoutOf bd o2 := by
  have he : o1 = o2 := execCS_det w fs bp st o1 o2 h1 h2
  subst he
  exact ⟨rfl, rfl, rfl⟩

theorem claim_c10_witness :
    ExecCS wAll FS.emp ["out"] stW (create_structure wAll FS.emp ["out"] stW) ∧
      stdoutOf "lib" (create_structure wAll FS.emp ["out"] stW) =
        stdoutOf "lib" (create_structure wAll FS.emp ["out"] stW) := by
  have d := cs_exec wAll FS.emp ["out"] stW
  exact ⟨d, (claim_c10 wAll FS.emp ["out"] stW "lib" _ _ d d).2.2⟩
